import Mathlib

/-!
# CloudApp: notes store and quote loader (`js/app.js`)

A shallow embedding of `js/app.js`.  The page state the script touches (the
`localStorage` slot `cloudapp_notes`, the DOM handles, the console log and the
dialogs shown) is an explicit record; every function of the script is a
function on that record.  Host facilities the script calls (`JSON.parse`,
`JSON.stringify`, `String.prototype.trim`, the HTML fragment serialiser behind
`innerHTML`) are modelled after their standards.

Limits of the host model:
* strings are sequences of Unicode scalar values (a lone surrogate code unit
  has no representation);
* JSON numbers are the integers, of any size; a literal with a fraction or an
  exponent, and a `\u` escape of a surrogate, are reported as
  `ParseError.unsupported`, on which the model makes no statement;
* a stored value that is not an array, and an array element without a string
  `text`, end `loadNotes` and `deleteNote` with `JSError.unsupported`, again
  no statement;
* `localStorage` has no quota.
-/

namespace CloudApp

/-! ## Host model: strings and JSON -/

/-- JavaScript strings. -/
abbrev JSString := List Char

/-- The values `JSON.parse` produces. Object members are kept in source order. -/
inductive JSValue where
  | null
  | bool (b : Bool)
  | num (n : Int)
  | str (s : JSString)
  | arr (xs : List JSValue)
  | obj (members : List (JSString × JSValue))

/-- Decimal rendering of an integer, as `Number::toString` renders one. -/
def numberToString (n : Int) : JSString :=
  if n < 0 then '-' :: Nat.toDigits 10 n.natAbs else Nat.toDigits 10 n.natAbs

/-- Lower-case hexadecimal digit. -/
def hexDigit (n : Nat) : Char :=
  if n < 10 then Char.ofNat (48 + n) else Char.ofNat (87 + n)

/-- The escape `\uXXXX` of a code unit (ECMAScript `UnicodeEscape`). -/
def unicodeEscape (n : Nat) : JSString :=
  ['\\', 'u', hexDigit (n / 4096 % 16), hexDigit (n / 256 % 16),
    hexDigit (n / 16 % 16), hexDigit (n % 16)]

/-- One character of ECMAScript `QuoteJSONString`. -/
def quoteChar (c : Char) : JSString :=
  if c = '\x08' then ['\\', 'b']
  else if c = '\t' then ['\\', 't']
  else if c = '\n' then ['\\', 'n']
  else if c = '\x0c' then ['\\', 'f']
  else if c = '\r' then ['\\', 'r']
  else if c = '"' then ['\\', '"']
  else if c = '\\' then ['\\', '\\']
  else if c.toNat < 32 then unicodeEscape c.toNat
  else [c]

/-- The characters of a quoted string after the opening quote, closing quote included. -/
def quoteChars : JSString → JSString
  | [] => ['"']
  | c :: cs => quoteChar c ++ quoteChars cs

/-- ECMAScript `QuoteJSONString`. -/
def quoteJSONString (s : JSString) : JSString := '"' :: quoteChars s

mutual
/-- `JSON.stringify` without indentation. -/
def JSON.stringify : JSValue → JSString
  | .null => ['n', 'u', 'l', 'l']
  | .bool true => ['t', 'r', 'u', 'e']
  | .bool false => ['f', 'a', 'l', 's', 'e']
  | .num n => numberToString n
  | .str s => quoteJSONString s
  | .arr [] => ['[', ']']
  | .arr (v :: vs) => '[' :: (JSON.stringify v ++ JSON.stringifyTail vs)
  | .obj [] => ['{', '}']
  | .obj ((k, v) :: ms) =>
    '{' :: (quoteJSONString k ++ ':' :: (JSON.stringify v ++ JSON.stringifyMembers ms))
/-- The elements after the first, then the closing bracket. -/
def JSON.stringifyTail : List JSValue → JSString
  | [] => [']']
  | v :: vs => ',' :: (JSON.stringify v ++ JSON.stringifyTail vs)
/-- The members after the first, then the closing brace. -/
def JSON.stringifyMembers : List (JSString × JSValue) → JSString
  | [] => ['}']
  | (k, v) :: ms =>
    ',' :: (quoteJSONString k ++ ':' :: (JSON.stringify v ++ JSON.stringifyMembers ms))
end

/-- Why the model gives no value for a JSON text. -/
inductive ParseError where
  /-- The text is not JSON: `JSON.parse` throws a `SyntaxError`. -/
  | syntaxError
  /-- The text uses a construct outside the model (see the file header). -/
  | unsupported
  deriving DecidableEq, Repr

/-- JSON insignificant whitespace. -/
def isJsonWs (c : Char) : Bool := c = ' ' || c = '\t' || c = '\n' || c = '\r'

/-- Skips JSON whitespace. -/
def skipWs : List Char → List Char
  | [] => []
  | c :: cs => if isJsonWs c then skipWs cs else c :: cs

/-- Value of a hexadecimal digit. -/
def hexVal (c : Char) : Option Nat :=
  if '0' ≤ c ∧ c ≤ '9' then some (c.toNat - 48)
  else if 'a' ≤ c ∧ c ≤ 'f' then some (c.toNat - 87)
  else if 'A' ≤ c ∧ c ≤ 'F' then some (c.toNat - 55)
  else none

/-- The character a `\uXXXX` escape denotes. -/
def parseUnicodeEscape (a b c d : Char) : Except ParseError Char :=
  match hexVal a, hexVal b, hexVal c, hexVal d with
  | some a, some b, some c, some d =>
    let n := a * 4096 + b * 256 + c * 16 + d
    if 0xD800 ≤ n ∧ n ≤ 0xDFFF then .error .unsupported else .ok (Char.ofNat n)
  | _, _, _, _ => .error .syntaxError

/-- Puts a character in front of a parsed string. -/
def consChar (c : Char) :
    Except ParseError (JSString × List Char) → Except ParseError (JSString × List Char)
  | .ok (s, r) => .ok (c :: s, r)
  | .error e => .error e

/-- The character a two-character escape `\e` denotes. -/
def simpleEscape (e : Char) : Option Char :=
  if e = '"' then some '"'
  else if e = '\\' then some '\\'
  else if e = '/' then some '/'
  else if e = 'b' then some '\x08'
  else if e = 'f' then some '\x0c'
  else if e = 'n' then some '\n'
  else if e = 'r' then some '\r'
  else if e = 't' then some '\t'
  else none

/-- A JSON string after its opening quote: the string and what follows the closing quote. -/
def parseStringBody : List Char → Except ParseError (JSString × List Char)
  | [] => .error .syntaxError
  | c :: r =>
    if c = '"' then .ok ([], r)
    else if c = '\\' then
      match r with
      | [] => .error .syntaxError
      | e :: r1 =>
        if e = 'u' then
          match r1 with
          | h1 :: h2 :: h3 :: h4 :: r2 =>
            match parseUnicodeEscape h1 h2 h3 h4 with
            | .ok ch => consChar ch (parseStringBody r2)
            | .error err => .error err
          | _ => .error .syntaxError
        else
          match simpleEscape e with
          | some ch => consChar ch (parseStringBody r1)
          | none => .error .syntaxError
    else if c.toNat < 32 then .error .syntaxError
    else consChar c (parseStringBody r)

/-- Value of a run of decimal digits. -/
def digitsValue (ds : List Char) : Nat :=
  ds.foldl (fun acc c => 10 * acc + (c.toNat - 48)) 0

/-- The end of a number's integer part: a fraction or exponent is outside the model. -/
def finishNumber (n : Int) (r : List Char) : Except ParseError (Int × List Char) :=
  if r.head? = some '.' ∨ r.head? = some 'e' ∨ r.head? = some 'E' then .error .unsupported
  else .ok (n, r)

/-- A JSON number without its sign: `0`, or a digit run that starts with a non-zero digit. -/
def parseUnsigned (negative : Bool) (cs : List Char) : Except ParseError (Int × List Char) :=
  match cs with
  | [] => .error .syntaxError
  | c :: r =>
    if c = '0' then finishNumber 0 r
    else if c.isDigit then
      let n : Int := digitsValue ((c :: r).takeWhile Char.isDigit)
      finishNumber (if negative then -n else n) ((c :: r).dropWhile Char.isDigit)
    else .error .syntaxError

/-- A JSON number. -/
def parseNumber (cs : List Char) : Except ParseError (Int × List Char) :=
  match cs with
  | [] => .error .syntaxError
  | c :: r => if c = '-' then parseUnsigned true r else parseUnsigned false (c :: r)

/-- Strips a literal from the front of the input. -/
def expectLit : List Char → List Char → Option (List Char)
  | [], cs => some cs
  | _ :: _, [] => none
  | l :: ls, c :: cs => if l = c then expectLit ls cs else none

mutual
/-- A JSON value at the head of the input (no leading whitespace), and the rest. -/
def parseValue : Nat → List Char → Except ParseError (JSValue × List Char)
  | 0, _ => .error .unsupported
  | _ + 1, [] => .error .syntaxError
  | fuel + 1, c :: r =>
    if c = 'n' then
      match expectLit ['u', 'l', 'l'] r with
      | some r1 => .ok (.null, r1)
      | none => .error .syntaxError
    else if c = 't' then
      match expectLit ['r', 'u', 'e'] r with
      | some r1 => .ok (.bool true, r1)
      | none => .error .syntaxError
    else if c = 'f' then
      match expectLit ['a', 'l', 's', 'e'] r with
      | some r1 => .ok (.bool false, r1)
      | none => .error .syntaxError
    else if c = '"' then
      match parseStringBody r with
      | .ok (s, r1) => .ok (.str s, r1)
      | .error e => .error e
    else if c = '[' then
      match skipWs r with
      | [] => .error .syntaxError
      | c1 :: r1 =>
        if c1 = ']' then .ok (.arr [], r1)
        else
          match parseValue fuel (c1 :: r1) with
          | .error e => .error e
          | .ok (v, r2) =>
            match parseTail fuel (skipWs r2) with
            | .error e => .error e
            | .ok (vs, r3) => .ok (.arr (v :: vs), r3)
    else if c = '{' then
      match skipWs r with
      | [] => .error .syntaxError
      | c1 :: r1 =>
        if c1 = '}' then .ok (.obj [], r1)
        else
          match parseMember fuel (c1 :: r1) with
          | .error e => .error e
          | .ok (m, r2) =>
            match parseMembers fuel (skipWs r2) with
            | .error e => .error e
            | .ok (ms, r3) => .ok (.obj (m :: ms), r3)
    else
      match parseNumber (c :: r) with
      | .ok (n, r1) => .ok (.num n, r1)
      | .error e => .error e
/-- After an array element: a comma and the next elements, or the closing bracket. -/
def parseTail : Nat → List Char → Except ParseError (List JSValue × List Char)
  | 0, _ => .error .unsupported
  | _ + 1, [] => .error .syntaxError
  | fuel + 1, c :: r =>
    if c = ']' then .ok ([], r)
    else if c = ',' then
      match parseValue fuel (skipWs r) with
      | .error e => .error e
      | .ok (v, r1) =>
        match parseTail fuel (skipWs r1) with
        | .error e => .error e
        | .ok (vs, r2) => .ok (v :: vs, r2)
    else .error .syntaxError
/-- One object member `"key" : value`. -/
def parseMember : Nat → List Char → Except ParseError ((JSString × JSValue) × List Char)
  | 0, _ => .error .unsupported
  | _ + 1, [] => .error .syntaxError
  | fuel + 1, c :: r =>
    if c = '"' then
      match parseStringBody r with
      | .error e => .error e
      | .ok (k, r1) =>
        match skipWs r1 with
        | [] => .error .syntaxError
        | c2 :: r2 =>
          if c2 = ':' then
            match parseValue fuel (skipWs r2) with
            | .error e => .error e
            | .ok (v, r3) => .ok ((k, v), r3)
          else .error .syntaxError
    else .error .syntaxError
/-- After an object member: a comma and the next members, or the closing brace. -/
def parseMembers : Nat → List Char → Except ParseError (List (JSString × JSValue) × List Char)
  | 0, _ => .error .unsupported
  | _ + 1, [] => .error .syntaxError
  | fuel + 1, c :: r =>
    if c = '}' then .ok ([], r)
    else if c = ',' then
      match parseMember fuel (skipWs r) with
      | .error e => .error e
      | .ok (m, r1) =>
        match parseMembers fuel (skipWs r1) with
        | .error e => .error e
        | .ok (ms, r2) => .ok (m :: ms, r2)
    else .error .syntaxError
end

/-- `JSON.parse`: one value between optional whitespace, and nothing else. -/
def JSON.parse (text : JSString) : Except ParseError JSValue :=
  match parseValue (2 * text.length + 2) (skipWs text) with
  | .error e => .error e
  | .ok (v, r) => if skipWs r = [] then .ok v else .error .syntaxError

/-! ## Host model: `String.prototype.trim` and HTML text serialisation -/

/-- The code points `trim` strips: ECMAScript `WhiteSpace` and `LineTerminator`. -/
def isTrimChar (c : Char) : Bool :=
  c.toNat = 0x09 || c.toNat = 0x0A || c.toNat = 0x0B || c.toNat = 0x0C || c.toNat = 0x0D
    || c.toNat = 0x20 || c.toNat = 0xA0 || c.toNat = 0x1680
    || (0x2000 ≤ c.toNat && c.toNat ≤ 0x200A)
    || c.toNat = 0x2028 || c.toNat = 0x2029 || c.toNat = 0x202F || c.toNat = 0x205F
    || c.toNat = 0x3000 || c.toNat = 0xFEFF

/-- `String.prototype.trimStart`. -/
def trimStart (s : JSString) : JSString := s.dropWhile isTrimChar

/-- `String.prototype.trimEnd`. -/
def trimEnd (s : JSString) : JSString := (s.reverse.dropWhile isTrimChar).reverse

/-- `String.prototype.trim`. -/
def trim (s : JSString) : JSString := trimEnd (trimStart s)

/-- Replaces every occurrence of a character by a string. -/
def replaceAll (c : Char) (replacement : JSString) : JSString → JSString
  | [] => []
  | x :: xs =>
    if x = c then replacement ++ replaceAll c replacement xs
    else x :: replaceAll c replacement xs

/-- HTML "escaping a string" outside attribute mode, the steps in the standard's order:
`&`, then U+00A0, then `<`, then `>`. -/
def escapeString (s : JSString) : JSString :=
  replaceAll '>' "&gt;".toList
    (replaceAll '<' "&lt;".toList
      (replaceAll (Char.ofNat 0xA0) "&nbsp;".toList
        (replaceAll '&' "&amp;".toList s)))

/-- The children a `div` can get from `textContent`: text nodes. -/
structure TextNode where
  data : JSString

/-- The setter of `textContent`: no child for the empty string, else one text node. -/
def setTextContent (text : JSString) : List TextNode :=
  if text = [] then [] else [⟨text⟩]

/-- The getter of `innerHTML` on an element whose children are text nodes. -/
def getInnerHTML : List TextNode → JSString
  | [] => []
  | node :: rest => escapeString node.data ++ getInnerHTML rest

/-! ## Page state -/

/-- The console method `appLog` picks for a message type. -/
inductive ConsoleMethod where
  | log
  | error
  | warn
  deriving DecidableEq, Repr

/-- One `appLog` call: the console method, the type tag and the message
(the time prefix and the data argument are not recorded). -/
structure LogEntry where
  method : ConsoleMethod
  type : JSString
  message : JSString
  deriving DecidableEq, Repr

/-- A `li` child of `#notes-list`: its class and the markup assigned to it. -/
structure ListItem where
  className : JSString
  innerHTML : JSString
  deriving DecidableEq, Repr

/-- What the script reads and writes. A DOM handle is `none` when
`document.getElementById` found no element. -/
structure State where
  /-- Content of `localStorage` under `NOTES_KEY`, `none` when the key is absent. -/
  storage : Option JSString
  /-- `textContent` of `#quote-text`. -/
  quoteText : Option JSString
  /-- `textContent` of `#quote-author`. -/
  quoteAuthor : Option JSString
  /-- `value` of `#note-input`. -/
  noteInput : Option JSString
  /-- Children of `#notes-list`. -/
  notesList : Option (List ListItem)
  /-- The `appLog` calls so far. -/
  console : List LogEntry
  /-- The `alert` dialogs shown so far. -/
  alerts : List JSString
  /-- The `confirm` dialogs shown so far. -/
  confirms : List JSString

/-- An exception that leaves a function of the script. -/
inductive JSError where
  | syntaxError
  | typeError
  /-- Not a JavaScript error: the run left the model (see the file header). -/
  | unsupported
  deriving DecidableEq, Repr

/-- How a call ended. -/
inductive Completion where
  | normal
  | threw (e : JSError)
  deriving DecidableEq, Repr

/-- `appLog(type, message, data)`. -/
def appLog (type message : JSString) (st : State) : State :=
  let method :=
    if type = "INFO".toList then ConsoleMethod.log
    else if type = "SUCCESS".toList then ConsoleMethod.log
    else if type = "ERROR".toList then ConsoleMethod.error
    else if type = "WARNING".toList then ConsoleMethod.warn
    else ConsoleMethod.log
  { st with console := st.console ++ [⟨method, type, message⟩] }

/-! ## Quote of the day -/

/-- How the request of `fetchQuote` ended. -/
inductive FetchOutcome where
  /-- The promise of `fetch` rejected. -/
  | networkError
  /-- A response arrived, with this status and body text. -/
  | response (status : Nat) (body : JSString)

/-- `response.ok`. -/
def responseOk (status : Nat) : Bool := 200 ≤ status && status ≤ 299

/-- Property lookup on a parsed value: the last member of that name of an object,
`undefined` (here `none`) otherwise; reading a property of `null` throws. -/
def getProperty (name : JSString) : JSValue → Except JSError (Option JSValue)
  | .null => .error .typeError
  | .obj members => .ok ((members.reverse.find? (fun m => m.1 = name)).map (fun m => m.2))
  | _ => .ok none

/-- `ToString` inside a template literal. -/
def templateToString : Option JSValue → Except JSError JSString
  | none => .ok "undefined".toList
  | some .null => .ok "null".toList
  | some (.bool true) => .ok "true".toList
  | some (.bool false) => .ok "false".toList
  | some (.num n) => .ok (numberToString n)
  | some (.str s) => .ok s
  | some (.arr _) => .error .unsupported
  | some (.obj _) => .error .unsupported

/-- The fallback pair of the `catch` block. -/
def fallbackQuote : JSString :=
  "\"Kesuksesan adalah hasil dari persiapan, kerja keras, dan belajar dari kegagalan.\"".toList

/-- The fallback author of the `catch` block. -/
def fallbackAuthor : JSString := "- Colin Powell".toList

/-- The `catch` block of `fetchQuote`. -/
def fetchQuoteCatch (st : State) : Completion × State :=
  let st := appLog "ERROR".toList "Gagal mengambil quote".toList st
  (.normal, { st with quoteText := some fallbackQuote, quoteAuthor := some fallbackAuthor })

/-- The body of the `try` block once `response.json()` has resolved with `data`. -/
def fetchQuoteShow (data : JSValue) (st : State) : Completion × State :=
  let st := appLog "SUCCESS".toList "Quote berhasil dimuat".toList st
  match getProperty "content".toList data with
  | .error .unsupported => (.threw .unsupported, st)
  | .error _ => fetchQuoteCatch st
  | .ok content =>
    match templateToString content with
    | .error _ => (.threw .unsupported, st)
    | .ok contentText =>
      let st := { st with quoteText := some ('"' :: (contentText ++ ['"'])) }
      match getProperty "author".toList data with
      | .error .unsupported => (.threw .unsupported, st)
      | .error _ => fetchQuoteCatch st
      | .ok author =>
        match templateToString author with
        | .error _ => (.threw .unsupported, st)
        | .ok authorText =>
          (.normal, { st with quoteAuthor := some ('-' :: ' ' :: authorText) })

/-- `fetchQuote()`, run until its promise settles, for a given outcome of the request. -/
def fetchQuote (outcome : FetchOutcome) (st : State) : Completion × State :=
  match st.quoteText, st.quoteAuthor with
  | some _, some _ =>
    let st := appLog "INFO".toList "Mengambil quote dari API...".toList st
    let st := { st with quoteText := some "Memuat quote...".toList,
                        quoteAuthor := some "- Loading...".toList }
    match outcome with
    | .networkError => fetchQuoteCatch st
    | .response status body =>
      if !responseOk status then fetchQuoteCatch st
      else
        match JSON.parse body with
        | .error .syntaxError => fetchQuoteCatch st
        | .error .unsupported => (.threw .unsupported, st)
        | .ok data => fetchQuoteShow data st
  | _, _ =>
    (.normal, appLog "INFO".toList "Elemen quote tidak ditemukan di halaman ini".toList st)

/-! ## Notes in `localStorage` -/

/-- `getNotes()`: the parsed slot, or the empty array when `getItem` gave a falsy value
(`null` for an absent key, or the empty string). -/
def getNotes (st : State) : Except JSError JSValue :=
  match st.storage with
  | none => .ok (.arr [])
  | some notes =>
    if notes = [] then .ok (.arr [])
    else
      match JSON.parse notes with
      | .ok v => .ok v
      | .error .syntaxError => .error .syntaxError
      | .error .unsupported => .error .unsupported

/-- `saveNotes(notes)`. -/
def saveNotes (notes : JSValue) (st : State) : State :=
  appLog "SUCCESS".toList "Notes berhasil disimpan ke localStorage".toList
    { st with storage := some (JSON.stringify notes) }

/-- `escapeHtml(text)`: a fresh `div`, its `textContent` set, its `innerHTML` read. -/
def escapeHtml (text : JSString) : JSString :=
  let div := setTextContent text
  getInnerHTML div

/-- The `text` of an array element, for elements that are objects whose `text` is a string. -/
def noteText (note : JSValue) : Except JSError JSString :=
  match note with
  | .obj _ =>
    match getProperty "text".toList note with
    | .ok (some (.str s)) => .ok s
    | _ => .error .unsupported
  | _ => .error .unsupported

/-- The markup `loadNotes` gives a row. -/
def rowMarkup (escapedText : JSString) (index : Nat) : JSString :=
  "\n            <span class=\"note-text\">".toList ++ escapedText
    ++ "</span>\n            <button class=\"note-delete\" onclick=\"deleteNote(".toList
    ++ numberToString index ++ ")\">Hapus</button>\n        ".toList

/-- The row shown when there is no note. -/
def placeholderRow : ListItem :=
  ⟨"empty-notes".toList, "Belum ada catatan. Tambahkan catatan pertama!".toList⟩

/-- The `forEach` of `loadNotes`, from position `index` on: one `li` appended per note. -/
def renderNotes : List JSValue → Nat → State → Completion × State
  | [], _, st => (.normal, st)
  | note :: rest, index, st =>
    match noteText note with
    | .error e => (.threw e, st)
    | .ok text =>
      let li : ListItem := ⟨"note-item".toList, rowMarkup (escapeHtml text) index⟩
      renderNotes rest (index + 1)
        { st with notesList := st.notesList.map (fun children => children ++ [li]) }

/-- `loadNotes()`. -/
def loadNotes (st : State) : Completion × State :=
  match st.notesList with
  | none => (.normal, appLog "INFO".toList "Elemen notes tidak ditemukan di halaman ini".toList st)
  | some _ =>
    match getNotes st with
    | .error e => (.threw e, st)
    | .ok (.arr notes) =>
      let st := appLog "INFO".toList "Memuat notes dari localStorage".toList st
      let st := { st with notesList := some [] }
      if notes.length = 0 then (.normal, { st with notesList := some [placeholderRow] })
      else renderNotes notes 0 st
    | .ok _ => (.threw .unsupported, st)

/-- The object literal of `addNote`. -/
def newNote (id : Int) (text createdAt : JSString) : JSValue :=
  .obj [("id".toList, .num id), ("text".toList, .str text), ("createdAt".toList, .str createdAt)]

/-- `addNote()`, for the readings `now` of `Date.now()` and `iso` of
`new Date().toISOString()`. -/
def addNote (now : Int) (iso : JSString) (st : State) : Completion × State :=
  match st.noteInput with
  | none => (.normal, st)
  | some value =>
    let text := trim value
    if text = [] then
      let st := appLog "WARNING".toList "User mencoba menambah note kosong".toList st
      (.normal, { st with alerts := st.alerts ++ ["Silakan tulis catatan terlebih dahulu!".toList] })
    else
      match getNotes st with
      | .error e => (.threw e, st)
      | .ok (.arr notes) =>
        let note := newNote now text iso
        let notes := notes ++ [note]
        let st := saveNotes (.arr notes) st
        let st := appLog "SUCCESS".toList "Note baru ditambahkan".toList st
        let st := { st with noteInput := some [] }
        loadNotes st
      | .ok _ => (.threw .typeError, st)

/-- `deleteNote(index)`, for the answer the user gives to `confirm` if it is shown. -/
def deleteNote (index : Int) (confirmAnswer : Bool) (st : State) : Completion × State :=
  match getNotes st with
  | .error e => (.threw e, st)
  | .ok (.arr notes) =>
    if index < 0 ∨ index ≥ notes.length then
      (.normal, appLog "ERROR".toList "Index note tidak valid".toList st)
    else
      let st := { st with
        confirms := st.confirms ++ ["Apakah Anda yakin ingin menghapus catatan ini?".toList] }
      if !confirmAnswer then
        (.normal, appLog "INFO".toList "User membatalkan penghapusan note".toList st)
      else
        let notes := notes.take index.toNat ++ notes.drop (index.toNat + 1)
        let st := appLog "SUCCESS".toList "Note berhasil dihapus".toList st
        let st := saveNotes (.arr notes) st
        loadNotes st
  | .ok _ => (.threw .unsupported, st)

/-! ## Vocabulary of the claims -/

/-- A note record of the data model. -/
structure Note where
  id : Int
  text : JSString
  createdAt : JSString

/-- A note record as a JSON value: the object with the members `id`, `text` and
`createdAt` of the data model, in this order. -/
def Note.toJS (n : Note) : JSValue :=
  .obj [("id".toList, .num n.id), ("text".toList, .str n.text),
    ("createdAt".toList, .str n.createdAt)]

/-- The id a stored element carries: the number under its key `id`. -/
def idOf : JSValue → Option Int
  | .obj members =>
    match members.lookup "id".toList with
    | some (.num n) => some n
    | _ => none
  | _ => none

/-- The ids of the elements of an array, in order; `none` if an element carries none. -/
def idsOf : List JSValue → Option (List Int)
  | [] => some []
  | v :: vs =>
    match idOf v, idsOf vs with
    | some n, some ns => some (n :: ns)
    | _, _ => none

/-- The ids of the persisted note sequence, in stored order. -/
def storedIds (st : State) : Option (List Int) :=
  match getNotes st with
  | .ok (.arr xs) => idsOf xs
  | _ => none

/-- What the user does in a session. -/
inductive Action where
  /-- Types `input` into `#note-input` and triggers `addNote`, which reads `now` from
  `Date.now()` and `iso` from `toISOString()`. -/
  | add (input : JSString) (now : Int) (iso : JSString)
  /-- Triggers `deleteNote(index)` and gives `confirmAnswer` to the dialog if it shows. -/
  | delete (index : Int) (confirmAnswer : Bool)

/-- One action on the page. -/
def perform (st : State) : Action → State
  | .add input now iso =>
    (addNote now iso { st with noteInput := st.noteInput.map (fun _ => input) }).2
  | .delete index confirmAnswer => (deleteNote index confirmAnswer st).2

/-- A session: the actions in order. -/
def session (st : State) (actions : List Action) : State := actions.foldl perform st

/-- The `Date.now()` readings of the `addNote` calls of a session, in order. -/
def clockReadings : List Action → List Int
  | [] => []
  | .add _ now _ :: rest => now :: clockReadings rest
  | .delete _ _ :: rest => clockReadings rest

/-- A page with an empty store and every element present and blank. -/
def emptyPage : State :=
  { storage := none, quoteText := some [], quoteAuthor := some [], noteInput := some [],
    notesList := some [], console := [], alerts := [], confirms := [] }

/-- What the HTML serialiser writes for one character of a text node: the entity of a
markup-significant character, the character itself otherwise. -/
def entityOf (c : Char) : JSString :=
  if c = '&' then "&amp;".toList
  else if c = Char.ofNat 0xA0 then "&nbsp;".toList
  else if c = '<' then "&lt;".toList
  else if c = '>' then "&gt;".toList
  else [c]

/-- Character-by-character escaping: every character replaced by `entityOf` it. -/
def escapeEach : JSString → JSString
  | [] => []
  | c :: cs => entityOf c ++ escapeEach cs

/-- The rows `loadNotes` is to show for a note sequence, the first one at position `index`. -/
def noteRows : List Note → Nat → List ListItem
  | [], _ => []
  | note :: rest, index =>
    ⟨"note-item".toList, rowMarkup (escapeHtml note.text) index⟩ :: noteRows rest (index + 1)

/-- The character references the serialiser writes, without their ampersand. -/
def IsEntityTail (post : List Char) : Prop :=
  "amp;".toList <+: post ∨ "lt;".toList <+: post ∨ "gt;".toList <+: post ∨
    "nbsp;".toList <+: post

/-- Two stored notes, the second with markup-significant characters in its text. -/
def sampleNotes : List Note :=
  [⟨1730000000000, "beli susu".toList, "2024-10-27T03:33:20.000Z".toList⟩,
    ⟨1730000060000, "<b>bayar</b> listrik & air".toList, "2024-10-27T03:34:20.000Z".toList⟩]

/-- A page whose slot holds `sampleNotes` and whose input field holds a text to add. -/
def samplePage : State :=
  { emptyPage with
    storage := some (JSON.stringify (.arr (sampleNotes.map Note.toJS)))
    noteInput := some "  bayar listrik ".toList }

/-- A page with an empty store whose input field holds blanks only. -/
def blankInputPage : State :=
  { emptyPage with noteInput := some "   ".toList }

/-- A session on three clock readings: two notes added, the first deleted, one more added. -/
def sampleSession : List Action :=
  [.add "satu".toList 1730000000000 "2024-10-27T03:33:20.000Z".toList,
    .add "dua".toList 1730000000001 "2024-10-27T03:33:20.001Z".toList,
    .delete 0 true,
    .add "tiga".toList 1730000000002 "2024-10-27T03:33:20.002Z".toList]

/-- Two `addNote` calls within the same millisecond. -/
def sameMillisecond : List Action :=
  [.add "satu".toList 1730000000000 "2024-10-27T03:33:20.000Z".toList,
    .add "dua".toList 1730000000000 "2024-10-27T03:33:20.000Z".toList]

/-- The notes `sameMillisecond` leaves in the store. -/
def sameMillisecondNotes : List Note :=
  [⟨1730000000000, "satu".toList, "2024-10-27T03:33:20.000Z".toList⟩,
    ⟨1730000000000, "dua".toList, "2024-10-27T03:33:20.000Z".toList⟩]

/-! ## Proof devices for the JSON round trip -/

/-- What may follow a value inside JSON text produced by `JSON.stringify`. -/
def Delim (rest : List Char) : Prop :=
  ∀ c, rest.head? = some c → c = ',' ∨ c = ']' ∨ c = '}'

mutual
/-- Fuel that `parseValue` needs on the rendering of a value. -/
def need : JSValue → Nat
  | .arr (v :: vs) => 1 + need v + needTail vs
  | .obj ((_, v) :: ms) => 2 + need v + needMembers ms
  | _ => 1
/-- Fuel that `parseTail` needs. -/
def needTail : List JSValue → Nat
  | [] => 1
  | v :: vs => 1 + need v + needTail vs
/-- Fuel that `parseMembers` needs. -/
def needMembers : List (JSString × JSValue) → Nat
  | [] => 1
  | (_, v) :: ms => 2 + need v + needMembers ms
end

/-! ## The JSON codec round-trips -/

theorem toDigitsCore_append (n : Nat) : ∀ (f1 f2 : Nat) (ds : List Char), n < f1 → n < f2 →
    Nat.toDigitsCore 10 f1 n ds = Nat.toDigitsCore 10 f2 n [] ++ ds := by
  induction n using Nat.strong_induction_on with
  | _ n ih =>
    intro f1 f2 ds h1 h2
    obtain ⟨g1, rfl⟩ : ∃ g, f1 = g + 1 := ⟨f1 - 1, by omega⟩
    obtain ⟨g2, rfl⟩ : ∃ g, f2 = g + 1 := ⟨f2 - 1, by omega⟩
    simp only [Nat.toDigitsCore]
    by_cases h0 : n / 10 = 0
    · simp [h0]
    · have hlt : n / 10 < n := by omega
      simp only [h0, if_false]
      rw [ih (n / 10) hlt g1 g2 _ (by omega) (by omega),
        ih (n / 10) hlt g2 g2 [_] (by omega) (by omega)]
      simp

theorem toDigits_rec (n : Nat) :
    Nat.toDigits 10 n =
      if n / 10 = 0 then [Nat.digitChar (n % 10)]
      else Nat.toDigits 10 (n / 10) ++ [Nat.digitChar (n % 10)] := by
  unfold Nat.toDigits
  by_cases h0 : n / 10 = 0
  · simp [Nat.toDigitsCore, h0]
  · simp only [Nat.toDigitsCore, h0, if_false]
    exact toDigitsCore_append (n / 10) n (n / 10 + 1) _ (by omega) (by omega)

theorem digitChar_spec (d : Nat) (h : d < 10) :
    (Nat.digitChar d).isDigit = true ∧ (Nat.digitChar d).toNat - 48 = d ∧
      (d ≠ 0 → Nat.digitChar d ≠ '0') := by
  interval_cases d <;> decide

theorem toDigits_isDigit (n : Nat) : ∀ c ∈ Nat.toDigits 10 n, c.isDigit = true := by
  induction n using Nat.strong_induction_on with
  | _ n ih =>
    intro c hc
    rw [toDigits_rec] at hc
    have hd := (digitChar_spec (n % 10) (Nat.mod_lt _ (by decide))).1
    split at hc
    · simp at hc; rw [hc]; exact hd
    · rename_i h0
      simp only [List.mem_append, List.mem_singleton] at hc
      rcases hc with hc | hc
      · exact ih (n / 10) (by omega) c hc
      · rw [hc]; exact hd

theorem digitsValue_append (ds : List Char) (c : Char) :
    digitsValue (ds ++ [c]) = 10 * digitsValue ds + (c.toNat - 48) := by
  simp [digitsValue, List.foldl_append]

theorem digitsValue_toDigits (n : Nat) : digitsValue (Nat.toDigits 10 n) = n := by
  induction n using Nat.strong_induction_on with
  | _ n ih =>
    rw [toDigits_rec]
    have hd := (digitChar_spec (n % 10) (Nat.mod_lt _ (by decide))).2.1
    split
    · rename_i h0
      simp only [digitsValue, List.foldl_cons, List.foldl_nil]
      omega
    · rename_i h0
      rw [digitsValue_append, ih (n / 10) (by omega), hd]
      omega

theorem toDigits_head (n : Nat) :
    ∃ c t, Nat.toDigits 10 n = c :: t ∧ c.isDigit = true ∧ (n ≠ 0 → c ≠ '0') := by
  induction n using Nat.strong_induction_on with
  | _ n ih =>
    rw [toDigits_rec]
    have hd := digitChar_spec (n % 10) (Nat.mod_lt _ (by decide))
    split
    · rename_i h0
      exact ⟨_, [], rfl, hd.1, fun hn => hd.2.2 (by omega)⟩
    · rename_i h0
      obtain ⟨c, t, hct, hc1, hc2⟩ := ih (n / 10) (by omega)
      exact ⟨c, t ++ [_], by rw [hct]; rfl, hc1, fun _ => hc2 h0⟩

theorem toDigits_zero : Nat.toDigits 10 0 = ['0'] := rfl

theorem takeWhile_digits (ds rest : List Char) (hds : ∀ c ∈ ds, c.isDigit = true)
    (hrest : ∀ c, rest.head? = some c → c.isDigit = false) :
    (ds ++ rest).takeWhile Char.isDigit = ds ∧ (ds ++ rest).dropWhile Char.isDigit = rest := by
  induction ds with
  | nil =>
    cases rest with
    | nil => simp
    | cons c r => simp [List.takeWhile, List.dropWhile, hrest c rfl]
  | cons d ds ih =>
    have hd := hds d (List.mem_cons_self _ _)
    have := ih (fun c hc => hds c (List.mem_cons_of_mem _ hc))
    simp [List.takeWhile, List.dropWhile, hd, this]

theorem Delim.not_digit {rest : List Char} (h : Delim rest) :
    ∀ c, rest.head? = some c → c.isDigit = false := by
  intro c hc
  rcases h c hc with rfl | rfl | rfl <;> decide

theorem finishNumber_delim (n : Int) {rest : List Char} (h : Delim rest) :
    finishNumber n rest = .ok (n, rest) := by
  unfold finishNumber
  rw [if_neg]
  rintro (h1 | h1 | h1) <;> rcases h _ h1 with h2 | h2 | h2 <;> exact absurd h2 (by decide)

theorem parseUnsigned_toDigits (neg : Bool) (m : Nat) (hm : neg = true → m ≠ 0)
    {rest : List Char} (h : Delim rest) :
    parseUnsigned neg (Nat.toDigits 10 m ++ rest) =
      .ok ((if neg then -(m : Int) else (m : Int)), rest) := by
  by_cases h0 : m = 0
  · subst h0
    have : neg = false := by cases neg <;> simp_all
    subst this
    simp [toDigits_zero, parseUnsigned, finishNumber_delim 0 h]
  · obtain ⟨c, t, hct, hc1, hc2⟩ := toDigits_head m
    have htw := takeWhile_digits (Nat.toDigits 10 m) rest (toDigits_isDigit m) h.not_digit
    rw [hct] at htw
    rw [hct]
    simp only [List.cons_append] at htw
    simp only [parseUnsigned, List.cons_append, hc2 h0, if_false, hc1, if_true]
    rw [htw.1, htw.2, ← hct, digitsValue_toDigits]
    exact finishNumber_delim _ h

theorem parseNumber_numberToString (n : Int) {rest : List Char} (h : Delim rest) :
    parseNumber (numberToString n ++ rest) = .ok (n, rest) := by
  unfold numberToString
  by_cases hn : n < 0
  · simp only [hn, if_true, List.cons_append, parseNumber]
    rw [parseUnsigned_toDigits true n.natAbs (fun _ => by omega) h]
    simp only [if_true]
    congr 2
    omega
  · simp only [hn, if_false]
    obtain ⟨c, t, hct, hc1, _⟩ := toDigits_head n.natAbs
    have hne : c ≠ '-' := by rintro rfl; exact absurd hc1 (by decide)
    have hp : parseNumber (c :: t ++ rest) = parseUnsigned false (c :: t ++ rest) := by
      simp [parseNumber, hne]
    rw [hct, hp, ← hct, parseUnsigned_toDigits false n.natAbs (by simp) h]
    simp only [Bool.false_eq_true, if_false]
    congr 2
    omega

/-- First characters of rendered numbers: a digit or the minus sign. -/
theorem numberToString_head (n : Int) :
    ∃ c t, numberToString n = c :: t ∧ (c.isDigit = true ∨ c = '-') := by
  unfold numberToString
  split
  · exact ⟨_, _, rfl, Or.inr rfl⟩
  · obtain ⟨c, t, hct, hc1, _⟩ := toDigits_head n.natAbs
    exact ⟨c, t, hct, Or.inl hc1⟩

theorem parseStringBody_cons (c : Char) (r : List Char) : parseStringBody (c :: r) =
    if c = '"' then .ok ([], r)
    else if c = '\\' then
      match r with
      | [] => .error .syntaxError
      | e :: r1 =>
        if e = 'u' then
          match r1 with
          | h1 :: h2 :: h3 :: h4 :: r2 =>
            match parseUnicodeEscape h1 h2 h3 h4 with
            | .ok ch => consChar ch (parseStringBody r2)
            | .error err => .error err
          | _ => .error .syntaxError
        else
          match simpleEscape e with
          | some ch => consChar ch (parseStringBody r1)
          | none => .error .syntaxError
    else if c.toNat < 32 then .error .syntaxError
    else consChar c (parseStringBody r) := by
  rw [parseStringBody.eq_def]

theorem parseUnicodeEscape_control (c : Char) (h : c.toNat < 32) :
    parseUnicodeEscape (hexDigit (c.toNat / 4096 % 16)) (hexDigit (c.toNat / 256 % 16))
      (hexDigit (c.toNat / 16 % 16)) (hexDigit (c.toNat % 16)) = .ok c := by
  have hc : c = Char.ofNat c.toNat := (Char.ofNat_toNat c).symm
  generalize c.toNat = n at h hc
  subst hc
  interval_cases n <;> rfl

theorem parseStringBody_quoteChar (c : Char) (tail : List Char) :
    parseStringBody (quoteChar c ++ tail) = consChar c (parseStringBody tail) := by
  unfold quoteChar
  split_ifs with h1 h2 h3 h4 h5 h6 h7 h8
  · subst h1; simp [parseStringBody_cons, simpleEscape]
  · subst h2; simp [parseStringBody_cons, simpleEscape]
  · subst h3; simp [parseStringBody_cons, simpleEscape]
  · subst h4; simp [parseStringBody_cons, simpleEscape]
  · subst h5; simp [parseStringBody_cons, simpleEscape]
  · subst h6; simp [parseStringBody_cons, simpleEscape]
  · subst h7; simp [parseStringBody_cons, simpleEscape]
  · simp [unicodeEscape, parseStringBody_cons, parseUnicodeEscape_control c h8]
  · simp [parseStringBody_cons, h6, h7, h8]

theorem parseStringBody_quoteChars (s : JSString) (rest : List Char) :
    parseStringBody (quoteChars s ++ rest) = .ok (s, rest) := by
  induction s with
  | nil => simp [quoteChars, parseStringBody_cons]
  | cons c cs ih =>
    simp only [quoteChars, List.append_assoc]
    rw [parseStringBody_quoteChar, ih]
    rfl

theorem skipWs_cons_of_not_ws (c : Char) (r : List Char) (h : isJsonWs c = false) :
    skipWs (c :: r) = c :: r := by
  simp [skipWs, h]

theorem isDigit_ne {c : Char} (d : Char) (hc : c.isDigit = true) (hd : d.isDigit = false) :
    c ≠ d := by
  rintro rfl
  rw [hc] at hd
  exact Bool.noConfusion hd

/-- A first character of a rendered number is none of the characters `parseValue`
dispatches on before it tries a number, and no whitespace or closing bracket. -/
theorem numStart_spec {c : Char} (hc : c.isDigit = true ∨ c = '-') :
    c ≠ 'n' ∧ c ≠ 't' ∧ c ≠ 'f' ∧ c ≠ '"' ∧ c ≠ '[' ∧ c ≠ '{' ∧
      isJsonWs c = false ∧ c ≠ ']' ∧ c ≠ '}' := by
  rcases hc with hc | rfl
  · have h1 := isDigit_ne ' ' hc (by decide)
    have h2 := isDigit_ne '\t' hc (by decide)
    have h3 := isDigit_ne '\n' hc (by decide)
    have h4 := isDigit_ne '\r' hc (by decide)
    refine ⟨isDigit_ne _ hc (by decide), isDigit_ne _ hc (by decide),
      isDigit_ne _ hc (by decide), isDigit_ne _ hc (by decide), isDigit_ne _ hc (by decide),
      isDigit_ne _ hc (by decide), ?_, isDigit_ne _ hc (by decide), isDigit_ne _ hc (by decide)⟩
    simp [isJsonWs, h1, h2, h3, h4]
  · decide

theorem stringify_head (v : JSValue) :
    ∃ c t, JSON.stringify v = c :: t ∧ isJsonWs c = false ∧ c ≠ ']' ∧ c ≠ '}' := by
  cases v with
  | null => exact ⟨_, _, by rw [JSON.stringify], by decide, by decide, by decide⟩
  | bool b =>
    cases b
    · exact ⟨_, _, by rw [JSON.stringify], by decide, by decide, by decide⟩
    · exact ⟨_, _, by rw [JSON.stringify], by decide, by decide, by decide⟩
  | num n =>
    obtain ⟨c, t, hct, hc⟩ := numberToString_head n
    have h := numStart_spec hc
    exact ⟨c, t, by rw [JSON.stringify, hct], h.2.2.2.2.2.2.1, h.2.2.2.2.2.2.2.1,
      h.2.2.2.2.2.2.2.2⟩
  | str s => exact ⟨_, _, by rw [JSON.stringify, quoteJSONString], by decide, by decide, by decide⟩
  | arr xs =>
    cases xs
    · exact ⟨_, _, by rw [JSON.stringify], by decide, by decide, by decide⟩
    · exact ⟨_, _, by rw [JSON.stringify], by decide, by decide, by decide⟩
  | obj ms =>
    rcases ms with _ | ⟨⟨k, v⟩, ms⟩
    · exact ⟨_, _, by rw [JSON.stringify], by decide, by decide, by decide⟩
    · exact ⟨_, _, by rw [JSON.stringify], by decide, by decide, by decide⟩

theorem stringifyTail_head (vs : List JSValue) (rest : List Char) :
    ∃ c t, JSON.stringifyTail vs ++ rest = c :: t ∧ (c = ',' ∨ c = ']') := by
  cases vs with
  | nil => exact ⟨_, _, by rw [JSON.stringifyTail]; rfl, Or.inr rfl⟩
  | cons v vs => exact ⟨_, _, by rw [JSON.stringifyTail]; rfl, Or.inl rfl⟩

theorem stringifyMembers_head (ms : List (JSString × JSValue)) (rest : List Char) :
    ∃ c t, JSON.stringifyMembers ms ++ rest = c :: t ∧ (c = ',' ∨ c = '}') := by
  rcases ms with _ | ⟨⟨k, v⟩, ms⟩
  · exact ⟨_, _, by rw [JSON.stringifyMembers]; rfl, Or.inr rfl⟩
  · exact ⟨_, _, by rw [JSON.stringifyMembers]; rfl, Or.inl rfl⟩

theorem delim_of_head {l : List Char} (h : ∃ c t, l = c :: t ∧ (c = ',' ∨ c = ']')) :
    Delim l := by
  obtain ⟨c, t, rfl, hc⟩ := h
  intro d hd
  simp only [List.head?_cons, Option.some.injEq] at hd
  subst hd
  rcases hc with rfl | rfl <;> simp

theorem delim_of_head_brace {l : List Char} (h : ∃ c t, l = c :: t ∧ (c = ',' ∨ c = '}')) :
    Delim l := by
  obtain ⟨c, t, rfl, hc⟩ := h
  intro d hd
  simp only [List.head?_cons, Option.some.injEq] at hd
  subst hd
  rcases hc with rfl | rfl <;> simp

theorem skipWs_of_head {l : List Char}
    (h : ∃ c t, l = c :: t ∧ (c = ',' ∨ c = ']' ∨ c = '}')) : skipWs l = l := by
  obtain ⟨c, t, rfl, hc⟩ := h
  apply skipWs_cons_of_not_ws
  rcases hc with rfl | rfl | rfl <;> decide

theorem parseValue_bracket (g : Nat) (X : List Char) (c : Char) (t : List Char)
    (hX : skipWs X = c :: t) (hc : c ≠ ']') :
    parseValue (g + 1) ('[' :: X) =
      match parseValue g (c :: t) with
      | .error e => .error e
      | .ok (v, r2) =>
        match parseTail g (skipWs r2) with
        | .error e => .error e
        | .ok (vs, r3) => .ok (.arr (v :: vs), r3) := by
  simp [parseValue, hX, hc]

theorem parseValue_brace (g : Nat) (X : List Char) (c : Char) (t : List Char)
    (hX : skipWs X = c :: t) (hc : c ≠ '}') :
    parseValue (g + 1) ('{' :: X) =
      match parseMember g (c :: t) with
      | .error e => .error e
      | .ok (m, r2) =>
        match parseMembers g (skipWs r2) with
        | .error e => .error e
        | .ok (ms, r3) => .ok (.obj (m :: ms), r3) := by
  simp [parseValue, hX, hc]

theorem parseMember_quote (g : Nat) (k : JSString) (X : List Char) :
    parseMember (g + 1) (quoteJSONString k ++ ':' :: X) =
      match parseValue g (skipWs X) with
      | .error e => .error e
      | .ok (v, r3) => .ok ((k, v), r3) := by
  simp [parseMember, quoteJSONString, parseStringBody_quoteChars, skipWs, isJsonWs]

mutual
theorem parseValue_stringify : ∀ (v : JSValue) (fuel : Nat) (rest : List Char),
    need v ≤ fuel → Delim rest → parseValue fuel (JSON.stringify v ++ rest) = .ok (v, rest)
  | .null, fuel, rest, hf, _ => by
    obtain ⟨g, rfl⟩ : ∃ g, fuel = g + 1 := ⟨fuel - 1, by simp [need] at hf; omega⟩
    simp [JSON.stringify, parseValue, expectLit]
  | .bool true, fuel, rest, hf, _ => by
    obtain ⟨g, rfl⟩ : ∃ g, fuel = g + 1 := ⟨fuel - 1, by simp [need] at hf; omega⟩
    simp [JSON.stringify, parseValue, expectLit]
  | .bool false, fuel, rest, hf, _ => by
    obtain ⟨g, rfl⟩ : ∃ g, fuel = g + 1 := ⟨fuel - 1, by simp [need] at hf; omega⟩
    simp [JSON.stringify, parseValue, expectLit]
  | .num n, fuel, rest, hf, hd => by
    obtain ⟨g, rfl⟩ : ∃ g, fuel = g + 1 := ⟨fuel - 1, by simp [need] at hf; omega⟩
    obtain ⟨c, t, hct, hc⟩ := numberToString_head n
    have h := numStart_spec hc
    have hp := parseNumber_numberToString n hd
    rw [JSON.stringify]
    rw [hct] at hp ⊢
    simp only [List.cons_append] at hp ⊢
    simp [parseValue, h.1, h.2.1, h.2.2.1, h.2.2.2.1, h.2.2.2.2.1, h.2.2.2.2.2.1, hp]
  | .str s, fuel, rest, hf, _ => by
    obtain ⟨g, rfl⟩ : ∃ g, fuel = g + 1 := ⟨fuel - 1, by simp [need] at hf; omega⟩
    simp [JSON.stringify, quoteJSONString, parseValue, parseStringBody_quoteChars]
  | .arr [], fuel, rest, hf, _ => by
    obtain ⟨g, rfl⟩ : ∃ g, fuel = g + 1 := ⟨fuel - 1, by simp [need] at hf; omega⟩
    simp [JSON.stringify, parseValue, skipWs, isJsonWs]
  | .arr (v :: vs), fuel, rest, hf, _ => by
    obtain ⟨g, rfl⟩ : ∃ g, fuel = g + 1 := ⟨fuel - 1, by simp [need] at hf; omega⟩
    have hf1 : need v ≤ g ∧ needTail vs ≤ g := by simp [need] at hf; omega
    obtain ⟨c, t, hct, hws, hb, _⟩ := stringify_head v
    have hhead := stringifyTail_head vs rest
    have hv := parseValue_stringify v g (JSON.stringifyTail vs ++ rest) hf1.1
      (delim_of_head hhead)
    have ht := parseTail_stringify vs g rest hf1.2
    have hsk : skipWs (JSON.stringifyTail vs ++ rest) = JSON.stringifyTail vs ++ rest :=
      skipWs_of_head (by
        obtain ⟨c, t, h1, h2⟩ := hhead
        exact ⟨c, t, h1, by tauto⟩)
    rw [JSON.stringify]
    simp only [List.cons_append, List.append_assoc]
    rw [parseValue_bracket g _ c (t ++ (JSON.stringifyTail vs ++ rest))
      (by rw [hct]; exact skipWs_cons_of_not_ws _ _ hws) hb]
    rw [hct] at hv
    simp only [List.cons_append] at hv
    rw [hv]
    simp only [hsk, ht]
  | .obj [], fuel, rest, hf, _ => by
    obtain ⟨g, rfl⟩ : ∃ g, fuel = g + 1 := ⟨fuel - 1, by simp [need] at hf; omega⟩
    simp [JSON.stringify, parseValue, skipWs, isJsonWs]
  | .obj ((k, v) :: ms), fuel, rest, hf, _ => by
    obtain ⟨g, rfl⟩ : ∃ g, fuel = g + 1 := ⟨fuel - 1, by simp [need] at hf; omega⟩
    obtain ⟨g1, rfl⟩ : ∃ g1, g = g1 + 1 := ⟨g - 1, by simp [need] at hf; omega⟩
    have hf1 : need v ≤ g1 ∧ needMembers ms ≤ g1 + 1 := by simp [need] at hf; omega
    obtain ⟨c, t, hct, hws, _, _⟩ := stringify_head v
    have hhead := stringifyMembers_head ms rest
    have hv := parseValue_stringify v g1 (JSON.stringifyMembers ms ++ rest) hf1.1
      (delim_of_head_brace hhead)
    have ht := parseMembers_stringify ms (g1 + 1) rest hf1.2
    have hsk : skipWs (JSON.stringifyMembers ms ++ rest) = JSON.stringifyMembers ms ++ rest :=
      skipWs_of_head (by
        obtain ⟨c, t, h1, h2⟩ := hhead
        exact ⟨c, t, h1, by tauto⟩)
    have hskv : skipWs (JSON.stringify v ++ (JSON.stringifyMembers ms ++ rest)) =
        JSON.stringify v ++ (JSON.stringifyMembers ms ++ rest) := by
      rw [hct]; exact skipWs_cons_of_not_ws _ _ hws
    rw [JSON.stringify]
    simp only [List.cons_append, List.append_assoc]
    rw [parseValue_brace (g1 + 1) _ '"' (quoteChars k ++ ':' :: (JSON.stringify v ++
      (JSON.stringifyMembers ms ++ rest)))
      (by simp [quoteJSONString, skipWs, isJsonWs]) (by decide)]
    have hm := parseMember_quote g1 k (JSON.stringify v ++ (JSON.stringifyMembers ms ++ rest))
    simp only [quoteJSONString, List.cons_append] at hm
    rw [hm, hskv, hv]
    simp only [hsk, ht]
theorem parseTail_stringify : ∀ (vs : List JSValue) (fuel : Nat) (rest : List Char),
    needTail vs ≤ fuel → parseTail fuel (JSON.stringifyTail vs ++ rest) = .ok (vs, rest)
  | [], fuel, rest, hf => by
    obtain ⟨g, rfl⟩ : ∃ g, fuel = g + 1 := ⟨fuel - 1, by simp [needTail] at hf; omega⟩
    simp [JSON.stringifyTail, parseTail]
  | v :: vs, fuel, rest, hf => by
    obtain ⟨g, rfl⟩ : ∃ g, fuel = g + 1 := ⟨fuel - 1, by simp [needTail] at hf; omega⟩
    have hf1 : need v ≤ g ∧ needTail vs ≤ g := by simp [needTail] at hf; omega
    obtain ⟨c, t, hct, hws, _, _⟩ := stringify_head v
    have hhead := stringifyTail_head vs rest
    have hv := parseValue_stringify v g (JSON.stringifyTail vs ++ rest) hf1.1
      (delim_of_head hhead)
    have ht := parseTail_stringify vs g rest hf1.2
    have hsk : skipWs (JSON.stringifyTail vs ++ rest) = JSON.stringifyTail vs ++ rest :=
      skipWs_of_head (by
        obtain ⟨c, t, h1, h2⟩ := hhead
        exact ⟨c, t, h1, by tauto⟩)
    have hskv : skipWs (JSON.stringify v ++ (JSON.stringifyTail vs ++ rest)) =
        JSON.stringify v ++ (JSON.stringifyTail vs ++ rest) := by
      rw [hct]; exact skipWs_cons_of_not_ws _ _ hws
    rw [JSON.stringifyTail]
    simp only [List.cons_append, List.append_assoc]
    simp [parseTail, hskv, hv, hsk, ht]
theorem parseMembers_stringify : ∀ (ms : List (JSString × JSValue)) (fuel : Nat)
    (rest : List Char),
    needMembers ms ≤ fuel → parseMembers fuel (JSON.stringifyMembers ms ++ rest) = .ok (ms, rest)
  | [], fuel, rest, hf => by
    obtain ⟨g, rfl⟩ : ∃ g, fuel = g + 1 := ⟨fuel - 1, by simp [needMembers] at hf; omega⟩
    simp [JSON.stringifyMembers, parseMembers]
  | (k, v) :: ms, fuel, rest, hf => by
    obtain ⟨g, rfl⟩ : ∃ g, fuel = g + 1 := ⟨fuel - 1, by simp [needMembers] at hf; omega⟩
    obtain ⟨g1, rfl⟩ : ∃ g1, g = g1 + 1 := ⟨g - 1, by simp [needMembers] at hf; omega⟩
    have hf1 : need v ≤ g1 ∧ needMembers ms ≤ g1 + 1 := by simp [needMembers] at hf; omega
    obtain ⟨c, t, hct, hws, _, _⟩ := stringify_head v
    have hhead := stringifyMembers_head ms rest
    have hv := parseValue_stringify v g1 (JSON.stringifyMembers ms ++ rest) hf1.1
      (delim_of_head_brace hhead)
    have ht := parseMembers_stringify ms (g1 + 1) rest hf1.2
    have hsk : skipWs (JSON.stringifyMembers ms ++ rest) = JSON.stringifyMembers ms ++ rest :=
      skipWs_of_head (by
        obtain ⟨c, t, h1, h2⟩ := hhead
        exact ⟨c, t, h1, by tauto⟩)
    have hskv : skipWs (JSON.stringify v ++ (JSON.stringifyMembers ms ++ rest)) =
        JSON.stringify v ++ (JSON.stringifyMembers ms ++ rest) := by
      rw [hct]; exact skipWs_cons_of_not_ws _ _ hws
    have hm := parseMember_quote g1 k (JSON.stringify v ++ (JSON.stringifyMembers ms ++ rest))
    have hq : skipWs (quoteJSONString k ++ ':' :: (JSON.stringify v ++
        (JSON.stringifyMembers ms ++ rest))) = quoteJSONString k ++ ':' :: (JSON.stringify v ++
        (JSON.stringifyMembers ms ++ rest)) := by
      simp [quoteJSONString, skipWs, isJsonWs]
    rw [JSON.stringifyMembers]
    simp only [List.cons_append, List.append_assoc]
    simp [parseMembers, hq, hm, hskv, hv, hsk, ht]
end

theorem quoteJSONString_length (k : JSString) : 2 ≤ (quoteJSONString k).length := by
  have : 1 ≤ (quoteChars k).length := by
    induction k with
    | nil => simp [quoteChars]
    | cons c cs ih => simp [quoteChars]; omega
  simp [quoteJSONString]; omega

mutual
theorem need_le_length : ∀ v : JSValue, need v ≤ (JSON.stringify v).length
  | .null => by simp [need, JSON.stringify]
  | .bool true => by simp [need, JSON.stringify]
  | .bool false => by simp [need, JSON.stringify]
  | .num n => by
    obtain ⟨c, t, hct, _⟩ := numberToString_head n
    simp [need, JSON.stringify, hct]
  | .str s => by
    have := quoteJSONString_length s
    simp [need, JSON.stringify]; omega
  | .arr [] => by simp [need, JSON.stringify]
  | .arr (v :: vs) => by
    have h1 := need_le_length v
    have h2 := needTail_le_length vs
    simp [need, JSON.stringify]; omega
  | .obj [] => by simp [need, JSON.stringify]
  | .obj ((k, v) :: ms) => by
    have h1 := need_le_length v
    have h2 := needMembers_le_length ms
    have h3 := quoteJSONString_length k
    simp [need, JSON.stringify]; omega
theorem needTail_le_length : ∀ vs : List JSValue, needTail vs ≤ (JSON.stringifyTail vs).length
  | [] => by simp [needTail, JSON.stringifyTail]
  | v :: vs => by
    have h1 := need_le_length v
    have h2 := needTail_le_length vs
    simp [needTail, JSON.stringifyTail]; omega
theorem needMembers_le_length :
    ∀ ms : List (JSString × JSValue), needMembers ms ≤ (JSON.stringifyMembers ms).length
  | [] => by simp [needMembers, JSON.stringifyMembers]
  | (k, v) :: ms => by
    have h1 := need_le_length v
    have h2 := needMembers_le_length ms
    have h3 := quoteJSONString_length k
    simp [needMembers, JSON.stringifyMembers]; omega
end

/-- Round trip of the JSON codec: parsing a rendering gives the value back. -/
theorem JSON.parse_stringify (v : JSValue) : JSON.parse (JSON.stringify v) = .ok v := by
  obtain ⟨c, t, hct, hws, _, _⟩ := stringify_head v
  have hsk : skipWs (JSON.stringify v) = JSON.stringify v := by
    rw [hct]; exact skipWs_cons_of_not_ws _ _ hws
  have hp := parseValue_stringify v (2 * (JSON.stringify v).length + 2) []
    (by have := need_le_length v; omega) (by intro c hc; simp at hc)
  rw [List.append_nil] at hp
  simp [JSON.parse, hsk, hp, skipWs]

theorem stringify_ne_nil (v : JSValue) : JSON.stringify v ≠ [] := by
  obtain ⟨c, t, hct, _⟩ := stringify_head v
  rw [hct]; simp

/-! ## Frame lemmas -/

@[simp] theorem appLog_storage (t m : JSString) (st : State) :
    (appLog t m st).storage = st.storage := rfl

@[simp] theorem appLog_notesList (t m : JSString) (st : State) :
    (appLog t m st).notesList = st.notesList := rfl

@[simp] theorem appLog_noteInput (t m : JSString) (st : State) :
    (appLog t m st).noteInput = st.noteInput := rfl

@[simp] theorem appLog_alerts (t m : JSString) (st : State) :
    (appLog t m st).alerts = st.alerts := rfl

@[simp] theorem appLog_confirms (t m : JSString) (st : State) :
    (appLog t m st).confirms = st.confirms := rfl

theorem getNotes_congr {st st1 : State} (h : st1.storage = st.storage) :
    getNotes st1 = getNotes st := by
  unfold getNotes
  rw [h]

theorem renderNotes_storage (notes : List JSValue) :
    ∀ (index : Nat) (st : State), (renderNotes notes index st).2.storage = st.storage := by
  induction notes with
  | nil => intro index st; rfl
  | cons note rest ih =>
    intro index st
    simp only [renderNotes]
    split
    · rfl
    · rw [ih]

theorem loadNotes_storage (st : State) : (loadNotes st).2.storage = st.storage := by
  unfold loadNotes
  split
  · rfl
  · split
    · rfl
    · simp only []
      split
      · rfl
      · rw [renderNotes_storage]; rfl
    · rfl

theorem getNotes_loadNotes (st : State) : getNotes (loadNotes st).2 = getNotes st :=
  getNotes_congr (loadNotes_storage st)

theorem getNotes_of_storage {st : State} {v : JSValue}
    (h : st.storage = some (JSON.stringify v)) : getNotes st = .ok v := by
  unfold getNotes
  rw [h]
  simp [stringify_ne_nil, JSON.parse_stringify]

/-- Reading back what `saveNotes` wrote gives the saved value. -/
theorem getNotes_saveNotes (v : JSValue) (st : State) : getNotes (saveNotes v st) = .ok v := by
  simp [getNotes, saveNotes, stringify_ne_nil, JSON.parse_stringify]

theorem splice_eq_eraseIdx (s : List JSValue) (i : Nat) :
    s.take i ++ s.drop (i + 1) = s.eraseIdx i := by
  rw [List.eraseIdx_eq_take_drop_succ]

theorem deleteNote_confirmed_state (st : State) (s : List JSValue) (i : Int)
    (hs : getNotes st = .ok (.arr s)) (h0 : 0 ≤ i) (hi : i < s.length) :
    (deleteNote i true st).2.storage = some (JSON.stringify (.arr (s.eraseIdx i.toNat))) := by
  have hcond : ¬ (i < 0 ∨ i ≥ (s.length : Int)) := by omega
  simp only [deleteNote, hs, hcond, if_false, Bool.not_true, Bool.false_eq_true]
  rw [loadNotes_storage, splice_eq_eraseIdx]
  rfl


/-! ## `trim` -/

theorem trim_eq_nil_iff (t : JSString) : trim t = [] ↔ ∀ c ∈ t, isTrimChar c = true := by
  unfold trim trimEnd trimStart
  constructor
  · intro h
    have h1 : ∀ c ∈ (List.dropWhile isTrimChar t), isTrimChar c = true := by
      rw [List.reverse_eq_nil_iff, List.dropWhile_eq_nil_iff] at h
      intro c hc
      exact h c (List.mem_reverse.mpr hc)
    have h2 : List.dropWhile isTrimChar t = [] := by
      cases hd : List.dropWhile isTrimChar t with
      | nil => rfl
      | cons a l =>
        have ha := List.head_dropWhile_not isTrimChar t (by rw [hd]; simp)
        have hb := h1 a (by rw [hd]; simp)
        simp only [hd, List.head_cons] at ha
        rw [hb] at ha
        exact absurd ha (by simp)
    exact List.dropWhile_eq_nil_iff.mp h2
  · intro h
    have h2 : List.dropWhile isTrimChar t = [] := List.dropWhile_eq_nil_iff.mpr h
    rw [h2]
    rfl

/-! ## The claims -/

/-- C1: when the persisted note sequence is `s` and `0 ≤ i < |s|`, `deleteNote(i)` with the user
confirming writes the sequence without its element `i`: the slot then reads back as
`s.eraseIdx i`, one element shorter, the elements before `i` in place and those after
`i` moved up by one. -/
theorem deleteNote_confirmed_removes (st : State) (s : List JSValue) (i : Int)
    (hs : getNotes st = .ok (.arr s)) (h0 : 0 ≤ i) (hi : i < s.length) :
    getNotes (deleteNote i true st).2 = .ok (.arr (s.eraseIdx i.toNat)) ∧
      (s.eraseIdx i.toNat).length = s.length - 1 ∧
      (∀ k, k < i.toNat → (s.eraseIdx i.toNat)[k]? = s[k]?) ∧
      (∀ k, i.toNat ≤ k → (s.eraseIdx i.toNat)[k]? = s[k + 1]?) := by
  have hst := deleteNote_confirmed_state st s i hs h0 hi
  refine ⟨?_, ?_, ?_, ?_⟩
  · exact getNotes_of_storage hst
  · rw [List.length_eraseIdx, if_pos (by omega)]
  · intro k hk
    rw [List.getElem?_eraseIdx]
    simp [hk]
  · intro k hk
    rw [List.getElem?_eraseIdx]
    simp [Nat.not_lt.mpr hk]


theorem addNote_storage (st : State) (s : List JSValue) (t : JSString) (now : Int)
    (iso : JSString) (hs : getNotes st = .ok (.arr s)) (hin : st.noteInput = some t)
    (ht : trim t ≠ []) :
    (addNote now iso st).2.storage =
      some (JSON.stringify (.arr (s ++ [newNote now (trim t) iso]))) := by
  simp only [addNote, hin, ht, if_false, hs]
  rw [loadNotes_storage]
  rfl

/-- C2: when the persisted note sequence is `s` and the input text `t` has a non-empty trimmed
form, `addNote` followed by `getNotes` yields `s` with one note appended: the length is
`|s| + 1`, the first `|s|` elements are `s`, and the last element is the new note, whose
text is `t.trim()`. -/
theorem addNote_then_getNotes (st : State) (s : List JSValue) (t : JSString) (now : Int)
    (iso : JSString) (hs : getNotes st = .ok (.arr s)) (hin : st.noteInput = some t)
    (ht : trim t ≠ []) :
    getNotes (addNote now iso st).2 = .ok (.arr (s ++ [newNote now (trim t) iso])) ∧
      (s ++ [newNote now (trim t) iso]).length = s.length + 1 ∧
      (s ++ [newNote now (trim t) iso]).take s.length = s ∧
      (s ++ [newNote now (trim t) iso]).getLast? = some (newNote now (trim t) iso) ∧
      noteText (newNote now (trim t) iso) = .ok (trim t) := by
  refine ⟨?_, by simp, by simp, by simp, ?_⟩
  · exact getNotes_of_storage (addNote_storage st s t now iso hs hin ht)
  · simp [noteText, newNote, getProperty]

theorem addNote_blank_result (st : State) (t : JSString) (now : Int) (iso : JSString)
    (hin : st.noteInput = some t) (ht : trim t = []) :
    addNote now iso st = (.normal,
      { appLog "WARNING".toList "User mencoba menambah note kosong".toList st with
        alerts := st.alerts ++ ["Silakan tulis catatan terlebih dahulu!".toList] }) := by
  simp only [addNote, hin, ht, if_true]
  rfl

/-- C3: when the input text is empty or consists only of the characters `trim` strips,
`addNote` completes after showing the alert, and the persisted slot, hence the persisted
note sequence, is what it was. -/
theorem addNote_blank_rejected (st : State) (t : JSString) (now : Int) (iso : JSString)
    (hin : st.noteInput = some t) (hblank : ∀ c ∈ t, isTrimChar c = true) :
    (addNote now iso st).1 = .normal ∧
      (addNote now iso st).2.alerts =
        st.alerts ++ ["Silakan tulis catatan terlebih dahulu!".toList] ∧
      (addNote now iso st).2.storage = st.storage ∧
      getNotes (addNote now iso st).2 = getNotes st := by
  rw [addNote_blank_result st t now iso hin ((trim_eq_nil_iff t).mpr hblank)]
  exact ⟨rfl, rfl, rfl, getNotes_congr rfl⟩

theorem deleteNote_invalid_index_result (st : State) (s : List JSValue) (i : Int)
    (answer : Bool) (hs : getNotes st = .ok (.arr s)) (hi : i < 0 ∨ i ≥ s.length) :
    deleteNote i answer st =
      (.normal, appLog "ERROR".toList "Index note tidak valid".toList st) := by
  simp only [deleteNote, hs, hi, if_true]

/-- C4: when the persisted note sequence has length `n` and `i < 0` or `i ≥ n`,
`deleteNote(i)` logs the index error through `console.error`, shows no dialog and
leaves the persisted slot, hence the persisted sequence, unchanged. -/
theorem deleteNote_out_of_range (st : State) (s : List JSValue) (i : Int) (answer : Bool)
    (hs : getNotes st = .ok (.arr s)) (hi : i < 0 ∨ i ≥ s.length) :
    (deleteNote i answer st).1 = .normal ∧
      (deleteNote i answer st).2.console =
        st.console ++ [⟨.error, "ERROR".toList, "Index note tidak valid".toList⟩] ∧
      (deleteNote i answer st).2.confirms = st.confirms ∧
      (deleteNote i answer st).2.alerts = st.alerts ∧
      (deleteNote i answer st).2.storage = st.storage ∧
      getNotes (deleteNote i answer st).2 = .ok (.arr s) := by
  rw [deleteNote_invalid_index_result st s i answer hs hi]
  exact ⟨rfl, rfl, rfl, rfl, rfl, hs ▸ getNotes_congr rfl⟩

theorem deleteNote_declined_result (st : State) (s : List JSValue) (i : Int)
    (hs : getNotes st = .ok (.arr s)) (h0 : 0 ≤ i) (hi : i < s.length) :
    deleteNote i false st =
      (.normal, appLog "INFO".toList "User membatalkan penghapusan note".toList
        { st with confirms :=
            st.confirms ++ ["Apakah Anda yakin ingin menghapus catatan ini?".toList] }) := by
  have hcond : ¬ (i < 0 ∨ i ≥ (s.length : Int)) := by omega
  simp only [deleteNote, hs, hcond, if_false, Bool.not_false, if_true]

/-- C9: when the persisted note sequence is `s` and `0 ≤ i < |s|`, `deleteNote(i)` with the
user declining the confirmation completes without an error and writes nothing: the slot, the
persisted sequence, the rendered list, the input field and the alerts are unchanged; only the
confirmation dialog was shown (and the cancellation logged). -/
theorem deleteNote_declined_noop (st : State) (s : List JSValue) (i : Int)
    (hs : getNotes st = .ok (.arr s)) (h0 : 0 ≤ i) (hi : i < s.length) :
    (deleteNote i false st).1 = .normal ∧
      (deleteNote i false st).2.storage = st.storage ∧
      getNotes (deleteNote i false st).2 = .ok (.arr s) ∧
      (deleteNote i false st).2.notesList = st.notesList ∧
      (deleteNote i false st).2.noteInput = st.noteInput ∧
      (deleteNote i false st).2.alerts = st.alerts ∧
      (deleteNote i false st).2.confirms =
        st.confirms ++ ["Apakah Anda yakin ingin menghapus catatan ini?".toList] := by
  rw [deleteNote_declined_result st s i hs h0 hi]
  exact ⟨rfl, rfl, hs ▸ getNotes_congr rfl, rfl, rfl, rfl, rfl⟩

/-- C5, as the code has it: `getNotes` returns the empty sequence, with no error, when the
slot is absent or holds the empty string; when the slot holds a non-empty text that
`JSON.parse` rejects, the `SyntaxError` leaves `getNotes`. -/
theorem getNotes_absent_or_unparseable (st : State) :
    (st.storage = none ∨ st.storage = some [] → getNotes st = .ok (.arr [])) ∧
      (∀ content, st.storage = some content → content ≠ [] →
        JSON.parse content = .error .syntaxError → getNotes st = .error .syntaxError) := by
  constructor
  · rintro (h | h) <;> simp [getNotes, h]
  · intro content h hne hp
    simp [getNotes, h, hne, hp]

/-- C5 fails as stated: the text `\x7b` is not JSON, and with it in the slot `getNotes`
throws the `SyntaxError` of `JSON.parse` instead of returning the empty sequence. -/
theorem getNotes_unparseable_throws :
    JSON.parse ['{'] = .error .syntaxError ∧
      getNotes { emptyPage with storage := some ['{'] } = .error .syntaxError ∧
      getNotes { emptyPage with storage := some ['{'] } ≠ .ok (.arr []) := by
  refine ⟨rfl, rfl, ?_⟩
  intro h
  have h2 : getNotes { emptyPage with storage := some ['{'] } = .error .syntaxError := rfl
  rw [h2] at h
  exact Except.noConfusion h

/-- C6: when both quote targets exist and the request fails (the promise of `fetch` rejects,
or the status is outside 200..299, or the body is not JSON), `fetchQuote` completes
without an error and the targets show the hard-coded fallback pair. -/
theorem fetchQuote_failure_shows_fallback (st : State) (outcome : FetchOutcome)
    (a b : JSString) (hq : st.quoteText = some a) (ha : st.quoteAuthor = some b)
    (hfail : outcome = .networkError ∨
      (∃ status body, outcome = .response status body ∧ responseOk status = false) ∨
      (∃ status body, outcome = .response status body ∧
        JSON.parse body = .error .syntaxError)) :
    (fetchQuote outcome st).1 = .normal ∧
      (fetchQuote outcome st).2.quoteText = some
        "\"Kesuksesan adalah hasil dari persiapan, kerja keras, dan belajar dari kegagalan.\"".toList ∧
      (fetchQuote outcome st).2.quoteAuthor = some "- Colin Powell".toList := by
  have key : ∀ st1 : State, (fetchQuoteCatch st1).1 = .normal ∧
      (fetchQuoteCatch st1).2.quoteText = some fallbackQuote ∧
      (fetchQuoteCatch st1).2.quoteAuthor = some fallbackAuthor := fun _ => ⟨rfl, rfl, rfl⟩
  rcases hfail with rfl | ⟨status, body, rfl, hok⟩ | ⟨status, body, rfl, hp⟩
  · simp only [fetchQuote, hq, ha]
    exact key _
  · simp only [fetchQuote, hq, ha, hok, Bool.not_false, if_true]
    exact key _
  · simp only [fetchQuote, hq, ha, hp]
    split
    · exact key _
    · exact key _


/-! ## Escaping -/

theorem replaceAll_append (c : Char) (r a b : JSString) :
    replaceAll c r (a ++ b) = replaceAll c r a ++ replaceAll c r b := by
  induction a with
  | nil => rfl
  | cons x xs ih =>
    simp only [List.cons_append, replaceAll]
    split <;> simp [ih]

theorem escapeString_cons (c : Char) (cs : JSString) :
    escapeString (c :: cs) = entityOf c ++ escapeString cs := by
  unfold escapeString entityOf
  by_cases h1 : c = '&'
  · subst h1
    simp [replaceAll, replaceAll_append]
  · by_cases h2 : c = Char.ofNat 0xA0
    · subst h2
      simp [replaceAll, replaceAll_append]
    · by_cases h3 : c = '<'
      · subst h3
        simp [replaceAll, replaceAll_append]
      · by_cases h4 : c = '>'
        · subst h4
          simp [replaceAll, replaceAll_append]
        · simp [replaceAll, h1, h2, h3, h4]

theorem escapeString_eq_escapeEach (s : JSString) : escapeString s = escapeEach s := by
  induction s with
  | nil => rfl
  | cons c cs ih => rw [escapeString_cons, ih]; rfl

theorem escapeHtml_eq_escapeEach (text : JSString) : escapeHtml text = escapeEach text := by
  unfold escapeHtml setTextContent
  split
  · rename_i h; subst h; rfl
  · simp [getInnerHTML, escapeString_eq_escapeEach]

theorem entityOf_no_angle (c : Char) : '<' ∉ entityOf c ∧ '>' ∉ entityOf c := by
  unfold entityOf
  split_ifs with h1 h2 h3 h4
  · decide
  · decide
  · decide
  · decide
  · simp only [List.mem_singleton]
    exact ⟨fun h => h3 h.symm, fun h => h4 h.symm⟩

theorem escapeEach_no_angle (s : JSString) : '<' ∉ escapeEach s ∧ '>' ∉ escapeEach s := by
  induction s with
  | nil => simp [escapeEach]
  | cons c cs ih =>
    have := entityOf_no_angle c
    simp only [escapeEach, List.mem_append, not_or]
    exact ⟨⟨this.1, ih.1⟩, ⟨this.2, ih.2⟩⟩

theorem amp_in_literal (lit pre tail : List Char) (hlit : '&' ∉ lit)
    (h : '&' :: lit = pre ++ '&' :: tail) : pre = [] ∧ tail = lit := by
  cases pre with
  | nil =>
    simp only [List.nil_append, List.cons.injEq, true_and] at h
    exact ⟨rfl, h.symm⟩
  | cons p ps =>
    simp only [List.cons_append, List.cons.injEq] at h
    exact absurd (h.2 ▸ (by simp : '&' ∈ ps ++ '&' :: tail)) hlit

theorem amp_in_entityOf (c : Char) (pre tail rest : List Char)
    (h : entityOf c = pre ++ '&' :: tail) : pre = [] ∧ IsEntityTail (tail ++ rest) := by
  unfold entityOf at h
  unfold IsEntityTail
  split_ifs at h with h1 h2 h3 h4
  · obtain ⟨hp, ht⟩ := amp_in_literal "amp;".toList pre tail (by decide) h
    exact ⟨hp, Or.inl (ht ▸ List.prefix_append _ _)⟩
  · obtain ⟨hp, ht⟩ := amp_in_literal "nbsp;".toList pre tail (by decide) h
    exact ⟨hp, Or.inr (Or.inr (Or.inr (ht ▸ List.prefix_append _ _)))⟩
  · obtain ⟨hp, ht⟩ := amp_in_literal "lt;".toList pre tail (by decide) h
    exact ⟨hp, Or.inr (Or.inl (ht ▸ List.prefix_append _ _))⟩
  · obtain ⟨hp, ht⟩ := amp_in_literal "gt;".toList pre tail (by decide) h
    exact ⟨hp, Or.inr (Or.inr (Or.inl (ht ▸ List.prefix_append _ _)))⟩
  · have hmem : '&' ∈ [c] := h ▸ (by simp : '&' ∈ pre ++ '&' :: tail)
    simp only [List.mem_singleton] at hmem
    exact absurd hmem.symm h1

theorem escapeEach_amp (s : JSString) :
    ∀ pre post, escapeEach s = pre ++ '&' :: post → IsEntityTail post := by
  induction s with
  | nil =>
    intro pre post h
    simp [escapeEach] at h
  | cons c cs ih =>
    intro pre post h
    simp only [escapeEach] at h
    rcases List.append_eq_append_iff.mp h with ⟨a, hpre, hrest⟩ | ⟨b, hent, hpost⟩
    · exact ih a post hrest
    · cases b with
      | nil =>
        simp only [List.nil_append] at hpost
        exact ih [] post hpost.symm
      | cons x xs =>
        simp only [List.cons_append, List.cons.injEq] at hpost
        obtain ⟨hx, hxs⟩ := hpost
        subst hx
        rw [hxs]
        exact (amp_in_entityOf c pre xs (escapeEach cs) hent).2

/-- C7: for every text, the output of `escapeHtml` is the text with each character replaced by
`entityOf` it, which is `&amp;` for `&`, `&lt;` for `<` and `&gt;` for `>`; the output
contains no `<` and no `>`, and every `&` in it starts one of the character references
`&amp;`, `&lt;`, `&gt;`, `&nbsp;`. So `<script>&` comes out as `&lt;script&gt;&amp;`. -/
theorem escapeHtml_neutralises_markup (text : JSString) :
    escapeHtml text = escapeEach text ∧
      entityOf '&' = "&amp;".toList ∧ entityOf '<' = "&lt;".toList ∧
      entityOf '>' = "&gt;".toList ∧
      '<' ∉ escapeHtml text ∧ '>' ∉ escapeHtml text ∧
      (∀ pre post, escapeHtml text = pre ++ '&' :: post →
        "amp;".toList <+: post ∨ "lt;".toList <+: post ∨ "gt;".toList <+: post ∨
          "nbsp;".toList <+: post) ∧
      escapeHtml "<script>&".toList = "&lt;script&gt;&amp;".toList := by
  rw [escapeHtml_eq_escapeEach]
  exact ⟨rfl, by decide, by decide, by decide, (escapeEach_no_angle text).1,
    (escapeEach_no_angle text).2, escapeEach_amp text, by decide⟩

/-! ## Rendering -/

theorem noteText_toJS (n : Note) : noteText n.toJS = .ok n.text := by
  simp [noteText, Note.toJS, newNote, getProperty]

theorem noteRows_length (notes : List Note) : ∀ index, (noteRows notes index).length = notes.length := by
  induction notes with
  | nil => intro index; rfl
  | cons n ns ih => intro index; simp [noteRows, ih]

theorem noteRows_getElem? (notes : List Note) : ∀ (index k : Nat),
    (noteRows notes index)[k]? =
      notes[k]?.map (fun n => ⟨"note-item".toList, rowMarkup (escapeHtml n.text) (index + k)⟩) := by
  induction notes with
  | nil => intro index k; simp [noteRows]
  | cons n ns ih =>
    intro index k
    cases k with
    | zero => simp [noteRows]
    | succ k =>
      simp only [noteRows, List.getElem?_cons_succ, ih]
      congr 1
      funext n
      congr 2
      omega

theorem renderNotes_rows (notes : List Note) : ∀ (index : Nat) (st : State)
    (children : List ListItem), st.notesList = some children →
    (renderNotes (notes.map Note.toJS) index st).1 = .normal ∧
      (renderNotes (notes.map Note.toJS) index st).2.notesList =
        some (children ++ noteRows notes index) := by
  induction notes with
  | nil =>
    intro index st children h
    simp [renderNotes, noteRows, h]
  | cons n ns ih =>
    intro index st children h
    simp only [List.map_cons, renderNotes, noteText_toJS]
    have := ih (index + 1)
      { st with notesList := st.notesList.map (fun children =>
          children ++ [⟨"note-item".toList, rowMarkup (escapeHtml n.text) index⟩]) }
      (children ++ [⟨"note-item".toList, rowMarkup (escapeHtml n.text) index⟩])
      (by simp [h])
    rw [this.1, this.2]
    simp [noteRows]

/-- The children `loadNotes` leaves in `#notes-list`, in terms of the builders it calls. -/
theorem loadNotes_rows_built (st : State) (notes : List Note) (children : List ListItem)
    (hlist : st.notesList = some children)
    (hs : getNotes st = .ok (.arr (notes.map Note.toJS))) :
    (loadNotes st).1 = .normal ∧
      (notes = [] → (loadNotes st).2.notesList = some [placeholderRow]) ∧
      (st.storage = none → (loadNotes st).2.notesList = some [placeholderRow]) ∧
      (notes ≠ [] → ∃ rows, (loadNotes st).2.notesList = some rows ∧
        rows.length = notes.length ∧
        ∀ k, k < notes.length → rows[k]? = notes[k]?.map (fun note =>
          ⟨"note-item".toList, rowMarkup (escapeHtml note.text) k⟩)) := by
  have hempty : notes = [] → (loadNotes st).1 = .normal ∧
      (loadNotes st).2.notesList = some [placeholderRow] := by
    intro hn
    subst hn
    simp [loadNotes, hlist, hs]
  have hfull : notes ≠ [] → (loadNotes st).1 = .normal ∧
      (loadNotes st).2.notesList = some (noteRows notes 0) := by
    intro hn
    have hlen : ¬ (notes.map Note.toJS).length = 0 := by simpa using hn
    have hr := renderNotes_rows notes 0
      { appLog "INFO".toList "Memuat notes dari localStorage".toList st with
        notesList := some [] } [] rfl
    simp only [loadNotes, hlist, hs, hlen, if_false]
    simpa using hr
  refine ⟨?_, fun hn => (hempty hn).2, ?_, ?_⟩
  · by_cases hn : notes = []
    · exact (hempty hn).1
    · exact (hfull hn).1
  · intro hnone
    have h0 : getNotes st = .ok (.arr []) := by simp [getNotes, hnone]
    rw [h0] at hs
    have hn : notes = [] := by
      simp only [Except.ok.injEq, JSValue.arr.injEq] at hs
      exact List.map_eq_nil_iff.mp hs.symm
    exact (hempty hn).2
  · intro hn
    refine ⟨noteRows notes 0, (hfull hn).2, noteRows_length notes 0, ?_⟩
    intro k _
    rw [noteRows_getElem?]
    simp

theorem numberToString_natCast (k : Nat) : numberToString (k : Int) = Nat.toDigits 10 k := by
  simp [numberToString]

/-- C8: when `#notes-list` exists and the persisted note sequence is `notes`, of length `n`,
`loadNotes` completes and replaces the children of the list. For `n > 0` there are exactly `n`
rows; row `k` is a `li` of class `note-item` whose markup is a `span` of class `note-text`
around the text of note `k` with `&`, `<`, `>` and U+00A0 written as character references,
followed by a `button` of class `note-delete` whose `onclick` is `deleteNote(k)`, `k` in
decimal. For `n = 0`, an absent slot included, there is exactly one row, of class
`empty-notes`, with the placeholder text. -/
theorem loadNotes_renders_rows (st : State) (notes : List Note) (children : List ListItem)
    (hlist : st.notesList = some children)
    (hs : getNotes st = .ok (.arr (notes.map Note.toJS))) :
    (loadNotes st).1 = .normal ∧
      (notes = [] → (loadNotes st).2.notesList = some
        [⟨"empty-notes".toList, "Belum ada catatan. Tambahkan catatan pertama!".toList⟩]) ∧
      (st.storage = none → (loadNotes st).2.notesList = some
        [⟨"empty-notes".toList, "Belum ada catatan. Tambahkan catatan pertama!".toList⟩]) ∧
      (notes ≠ [] → ∃ rows, (loadNotes st).2.notesList = some rows ∧
        rows.length = notes.length ∧
        ∀ k, k < notes.length → rows[k]? = notes[k]?.map (fun note =>
          (⟨"note-item".toList,
            "\n            <span class=\"note-text\">".toList ++ escapeEach note.text
              ++ "</span>\n            <button class=\"note-delete\" onclick=\"deleteNote(".toList
              ++ Nat.toDigits 10 k ++ ")\">Hapus</button>\n        ".toList⟩ : ListItem))) := by
  have h := loadNotes_rows_built st notes children hlist hs
  refine ⟨h.1, h.2.1, h.2.2.1, ?_⟩
  intro hn
  obtain ⟨rows, hrows, hlen, hall⟩ := h.2.2.2 hn
  refine ⟨rows, hrows, hlen, ?_⟩
  intro k hk
  rw [hall k hk]
  congr 1
  funext note
  simp only [rowMarkup, numberToString_natCast, escapeHtml_eq_escapeEach]

/-! ## Sessions -/

/-- The object literal of `addNote` is the data model's encoding of the note. -/
theorem newNote_eq_toJS (id : Int) (text createdAt : JSString) :
    newNote id text createdAt = Note.toJS ⟨id, text, createdAt⟩ := rfl

theorem Note.toJS_injective : Function.Injective Note.toJS := by
  intro a b h
  cases a; cases b
  simp only [Note.toJS, newNote, JSValue.obj.injEq, List.cons.injEq, Prod.mk.injEq,
    JSValue.num.injEq, JSValue.str.injEq, true_and, and_true] at h
  obtain ⟨h1, h2, h3⟩ := h
  subst h1 h2 h3
  rfl

/-- An `add` action leaves the stored sequence as it is or appends a note whose id is the
clock reading. -/
theorem perform_add (st : State) (notes : List Note) (input : JSString) (now : Int)
    (iso : JSString) (hs : getNotes st = .ok (.arr (notes.map Note.toJS))) :
    getNotes (perform st (.add input now iso)) = .ok (.arr (notes.map Note.toJS)) ∨
      ∃ text, getNotes (perform st (.add input now iso)) =
        .ok (.arr ((notes ++ [(⟨now, text, iso⟩ : Note)]).map Note.toJS)) := by
  cases hin : st.noteInput with
  | none =>
    left
    have : perform st (.add input now iso) = { st with noteInput := none } := by
      simp [perform, hin, addNote]
    rw [this]
    exact hs ▸ getNotes_congr rfl
  | some old =>
    have hs1 : getNotes { st with noteInput := st.noteInput.map (fun _ => input) } =
        .ok (.arr (notes.map Note.toJS)) := hs ▸ getNotes_congr rfl
    have hin1 : ({ st with noteInput := st.noteInput.map (fun _ => input) } : State).noteInput =
        some input := by simp [hin]
    by_cases ht : trim input = []
    · left
      simp only [perform]
      rw [addNote_blank_result _ input now iso hin1 ht]
      exact hs ▸ getNotes_congr rfl
    · right
      refine ⟨trim input, ?_⟩
      simp only [perform]
      apply getNotes_of_storage
      rw [addNote_storage _ _ input now iso hs1 hin1 ht, newNote_eq_toJS]
      simp

/-- A `delete` action leaves the stored sequence as it is or removes one element. -/
theorem perform_delete (st : State) (notes : List Note) (index : Int) (answer : Bool)
    (hs : getNotes st = .ok (.arr (notes.map Note.toJS))) :
    ∃ notes1 : List Note, getNotes (perform st (.delete index answer)) = .ok (.arr (notes1.map Note.toJS)) ∧
      notes1.Sublist notes := by
  by_cases hr : index < 0 ∨ index ≥ ((notes.map Note.toJS).length : Int)
  · refine ⟨notes, ?_, List.Sublist.refl _⟩
    simp only [perform]
    rw [deleteNote_invalid_index_result st _ index answer hs hr]
    exact hs ▸ getNotes_congr rfl
  · have h0 : 0 ≤ index := by omega
    have h1 : index < ((notes.map Note.toJS).length : Int) := by omega
    cases answer with
    | false =>
      refine ⟨notes, ?_, List.Sublist.refl _⟩
      simp only [perform]
      rw [deleteNote_declined_result st _ index hs h0 h1]
      exact hs ▸ getNotes_congr rfl
    | true =>
      refine ⟨notes.eraseIdx index.toNat, ?_, List.eraseIdx_sublist _ _⟩
      simp only [perform]
      apply getNotes_of_storage
      rw [deleteNote_confirmed_state st _ index hs h0 h1]
      simp only [List.eraseIdx_eq_take_drop_succ, List.map_append, List.map_take, List.map_drop]

theorem idOf_toJS (n : Note) : idOf n.toJS = some n.id := by
  simp [idOf, Note.toJS, List.lookup]

theorem idsOf_toJS (notes : List Note) :
    idsOf (notes.map Note.toJS) = some (notes.map (fun n => n.id)) := by
  induction notes with
  | nil => rfl
  | cons n ns ih => simp [idsOf, idOf_toJS, ih]

theorem storedIds_of_notes {st : State} {notes : List Note}
    (h : getNotes st = .ok (.arr (notes.map Note.toJS))) :
    storedIds st = some (notes.map (fun n => n.id)) := by
  simp [storedIds, h, idsOf_toJS]

/-- Along a session the store holds notes whose ids are, in order, ids that were stored
before or clock readings of the `addNote` calls. -/
theorem session_ids_sublist (actions : List Action) :
    ∀ (st : State) (notes : List Note),
      getNotes st = .ok (.arr (notes.map Note.toJS)) →
      ∃ notes1 : List Note,
        getNotes (session st actions) = .ok (.arr (notes1.map Note.toJS)) ∧
        (notes1.map (fun n => n.id)).Sublist
          (notes.map (fun n => n.id) ++ clockReadings actions) := by
  induction actions with
  | nil =>
    intro st notes hs
    exact ⟨notes, hs, by simp [clockReadings]⟩
  | cons a rest ih =>
    intro st notes hs
    cases a with
    | add input now iso =>
      simp only [session, List.foldl_cons, clockReadings]
      rcases perform_add st notes input now iso hs with h | ⟨text, h⟩
      · obtain ⟨notes1, h1, hsub⟩ := ih _ notes h
        refine ⟨notes1, h1, hsub.trans ?_⟩
        exact List.Sublist.append (List.Sublist.refl _) (List.sublist_cons_self _ _)
      · obtain ⟨notes1, h1, hsub⟩ := ih _ _ h
        refine ⟨notes1, h1, ?_⟩
        simpa using hsub
    | delete index answer =>
      simp only [session, List.foldl_cons, clockReadings]
      obtain ⟨notes0, h, hsub0⟩ := perform_delete st notes index answer hs
      obtain ⟨notes1, h1, hsub⟩ := ih _ notes0 h
      refine ⟨notes1, h1, hsub.trans ?_⟩
      exact List.Sublist.append (hsub0.map _) (List.Sublist.refl _)

/-- C10, as the code has it: in the persisted sequence reached from an empty store by any
`addNote` and `deleteNote` calls, every stored id, read from the slot under the key `id`, is
the `Date.now()` reading of the `addNote` call that stored it, in call order. So the stored
ids are non-decreasing in insertion order when those readings are non-decreasing, and
strictly increasing, hence pairwise distinct, when those readings are strictly increasing. -/
theorem session_ids_follow_clock (st : State) (actions : List Action)
    (hempty : st.storage = none) :
    ∃ ids : List Int,
      storedIds (session st actions) = some ids ∧
      ids.Sublist (clockReadings actions) ∧
      (∃ notes : List Note,
        getNotes (session st actions) = .ok (.arr (notes.map Note.toJS)) ∧
        notes.map (fun n => n.id) = ids) ∧
      ((clockReadings actions).Pairwise (fun a b => a ≤ b) →
        ids.Pairwise (fun a b => a ≤ b)) ∧
      ((clockReadings actions).Pairwise (fun a b => a < b) →
        ids.Pairwise (fun a b => a < b) ∧ ids.Nodup) := by
  have h0 : getNotes st = .ok (.arr (([] : List Note).map Note.toJS)) := by
    simp [getNotes, hempty]
  obtain ⟨notes, hn, hsub⟩ := session_ids_sublist actions st [] h0
  simp only [List.map_nil, List.nil_append] at hsub
  refine ⟨notes.map (fun n => n.id), storedIds_of_notes hn, hsub, ⟨notes, hn, rfl⟩, ?_, ?_⟩
  · intro hc
    exact hc.sublist hsub
  · intro hc
    exact ⟨hc.sublist hsub, (hc.sublist hsub).imp (fun h => ne_of_lt h)⟩

/-- C10 fails as stated: two `addNote` calls that read the same millisecond, which a
non-decreasing clock allows, leave two notes with the same id in the store. -/
theorem same_millisecond_shares_id :
    (clockReadings sameMillisecond).Pairwise (fun a b => a ≤ b) ∧
      getNotes (session emptyPage sameMillisecond) =
        .ok (.arr (sameMillisecondNotes.map Note.toJS)) ∧
      storedIds (session emptyPage sameMillisecond) = some [1730000000000, 1730000000000] ∧
      ¬ (sameMillisecondNotes.map (fun n => n.id)).Nodup ∧
      ¬ (sameMillisecondNotes.map (fun n => n.id)).Pairwise (fun a b => a < b) :=
  ⟨by decide, rfl, rfl, by decide, by decide⟩

/-! ## The claims at concrete inputs -/

/-- C1 at `samplePage`: deleting index 0 and confirming leaves the second note only. -/
theorem deleteNote_confirmed_removes_sample :
    getNotes samplePage = .ok (.arr (sampleNotes.map Note.toJS)) ∧
      getNotes (deleteNote 0 true samplePage).2 =
        .ok (.arr [Note.toJS ⟨1730000060000, "<b>bayar</b> listrik & air".toList,
          "2024-10-27T03:34:20.000Z".toList⟩]) :=
  ⟨getNotes_of_storage rfl,
    (deleteNote_confirmed_removes samplePage (sampleNotes.map Note.toJS) 0
      (getNotes_of_storage rfl) (by decide) (by decide)).1⟩

/-- C2 at `samplePage`: the input `"  bayar listrik "` is stored, trimmed, as a third note. -/
theorem addNote_then_getNotes_sample :
    samplePage.noteInput = some "  bayar listrik ".toList ∧
      trim "  bayar listrik ".toList = "bayar listrik".toList ∧
      getNotes (addNote 1730000120000 "2024-10-27T03:35:20.000Z".toList samplePage).2 =
        .ok (.arr (sampleNotes.map Note.toJS ++
          [newNote 1730000120000 "bayar listrik".toList "2024-10-27T03:35:20.000Z".toList])) :=
  ⟨rfl, by decide,
    (addNote_then_getNotes samplePage (sampleNotes.map Note.toJS) "  bayar listrik ".toList
      1730000120000 "2024-10-27T03:35:20.000Z".toList (getNotes_of_storage rfl) rfl
      (by decide)).1⟩

/-- C3 at `blankInputPage`: three blanks give the alert and leave the slot absent. -/
theorem addNote_blank_rejected_sample :
    (∀ c ∈ "   ".toList, isTrimChar c = true) ∧
      (addNote 1730000120000 [] blankInputPage).1 = .normal ∧
      (addNote 1730000120000 [] blankInputPage).2.alerts =
        ["Silakan tulis catatan terlebih dahulu!".toList] ∧
      (addNote 1730000120000 [] blankInputPage).2.storage = none :=
  ⟨by decide,
    (addNote_blank_rejected blankInputPage "   ".toList 1730000120000 [] rfl (by decide)).1,
    (addNote_blank_rejected blankInputPage "   ".toList 1730000120000 [] rfl (by decide)).2.1,
    (addNote_blank_rejected blankInputPage "   ".toList 1730000120000 [] rfl (by decide)).2.2.1⟩

/-- C4 at `samplePage`: index 2 of a two-note sequence is logged and nothing is asked. -/
theorem deleteNote_out_of_range_sample :
    (2 : Int) ≥ (sampleNotes.map Note.toJS).length ∧
      (deleteNote 2 true samplePage).2.console =
        [⟨.error, "ERROR".toList, "Index note tidak valid".toList⟩] ∧
      (deleteNote 2 true samplePage).2.confirms = [] ∧
      (deleteNote 2 true samplePage).2.storage = samplePage.storage :=
  ⟨by decide,
    (deleteNote_out_of_range samplePage (sampleNotes.map Note.toJS) 2 true
      (getNotes_of_storage rfl) (Or.inr (by decide))).2.1,
    (deleteNote_out_of_range samplePage (sampleNotes.map Note.toJS) 2 true
      (getNotes_of_storage rfl) (Or.inr (by decide))).2.2.1,
    (deleteNote_out_of_range samplePage (sampleNotes.map Note.toJS) 2 true
      (getNotes_of_storage rfl) (Or.inr (by decide))).2.2.2.2.1⟩

/-- C5 as amended, at `emptyPage`: the absent slot reads as the empty sequence. -/
theorem getNotes_absent_sample : getNotes emptyPage = .ok (.arr []) :=
  (getNotes_absent_or_unparseable emptyPage).1 (Or.inl rfl)

/-- C6 at `emptyPage`: a response with status 500 ends with the fallback pair shown. -/
theorem fetchQuote_status_500_sample :
    responseOk 500 = false ∧
      (fetchQuote (.response 500 []) emptyPage).1 = .normal ∧
      (fetchQuote (.response 500 []) emptyPage).2.quoteText = some
        "\"Kesuksesan adalah hasil dari persiapan, kerja keras, dan belajar dari kegagalan.\"".toList ∧
      (fetchQuote (.response 500 []) emptyPage).2.quoteAuthor = some "- Colin Powell".toList :=
  ⟨rfl, fetchQuote_failure_shows_fallback emptyPage (.response 500 []) [] [] rfl rfl
    (Or.inr (Or.inl ⟨500, [], rfl, rfl⟩))⟩

/-- C8 at `samplePage`: two rows, the second showing its text with the markup characters
as character references and a button calling `deleteNote(1)`. -/
theorem loadNotes_renders_rows_sample :
    (loadNotes samplePage).1 = .normal ∧
      ∃ rows, (loadNotes samplePage).2.notesList = some rows ∧ rows.length = 2 ∧
        rows[1]? = some ⟨"note-item".toList,
          ("\n            <span class=\"note-text\">"
            ++ "&lt;b&gt;bayar&lt;/b&gt; listrik &amp; air"
            ++ "</span>\n            <button class=\"note-delete\" onclick=\"deleteNote(1)\">"
            ++ "Hapus</button>\n        ").toList⟩ := by
  have h := loadNotes_renders_rows samplePage sampleNotes [] rfl (getNotes_of_storage rfl)
  obtain ⟨rows, hrows, hlen, hall⟩ := h.2.2.2 (by simp [sampleNotes])
  exact ⟨h.1, rows, hrows, hlen, (hall 1 (by decide)).trans rfl⟩

/-- C9 at `samplePage`: declining the deletion of index 0 leaves the slot as it was. -/
theorem deleteNote_declined_noop_sample :
    (deleteNote 0 false samplePage).1 = .normal ∧
      (deleteNote 0 false samplePage).2.storage = samplePage.storage ∧
      getNotes (deleteNote 0 false samplePage).2 = .ok (.arr (sampleNotes.map Note.toJS)) :=
  ⟨(deleteNote_declined_noop samplePage (sampleNotes.map Note.toJS) 0
      (getNotes_of_storage rfl) (by decide) (by decide)).1,
    (deleteNote_declined_noop samplePage (sampleNotes.map Note.toJS) 0
      (getNotes_of_storage rfl) (by decide) (by decide)).2.1,
    (deleteNote_declined_noop samplePage (sampleNotes.map Note.toJS) 0
      (getNotes_of_storage rfl) (by decide) (by decide)).2.2.1⟩

set_option maxRecDepth 100000 in
/-- C10 as amended, at `sampleSession`: the clock readings strictly increase, the store ends
with the ids of the second and the third `addNote` call, and they strictly increase. -/
theorem session_ids_follow_clock_sample :
    (clockReadings sampleSession).Pairwise (fun a b => a < b) ∧
      storedIds (session emptyPage sampleSession) = some [1730000000001, 1730000000002] ∧
      ∃ ids : List Int,
        storedIds (session emptyPage sampleSession) = some ids ∧
        ids.Sublist (clockReadings sampleSession) ∧
        ids.Pairwise (fun a b => a < b) ∧ ids.Nodup := by
  have hc : (clockReadings sampleSession).Pairwise (fun a b => a < b) := by decide
  obtain ⟨ids, hids, hsub, _, _, hlt⟩ := session_ids_follow_clock emptyPage sampleSession rfl
  exact ⟨hc, rfl, ids, hids, hsub, hlt hc⟩

end CloudApp
